import Mathlib

/-!
Shallow embedding of the incremental knowledge-graph engine
(`actions` module, `store`, `utils/cache.ts`, `utils/rateLimiter.ts`,
`libraryApi.ts`, `llm.ts`) of the literary-explorer repository.

Conventions of the embedding:
* JS objects keyed by strings (`state.nodes`, `Map`) are modelled as
  insertion-ordered association lists, matching the iteration order that the
  source relies on (`Object.values(...).find`, `Map.keys().next()`).
* JS `null`/`undefined` is `Option.none`; JS truthiness on strings and
  numbers (the merge guards `node.series && !state.nodes[id].series` etc.)
  is modelled by the `truthyS`/`truthyI` helpers, under which `""` and `0`
  are falsy exactly as in the source.
* Timestamps (`Date.now()` values, logical query timestamps) are `Int`.
* Purely visual node fields that no operation under verification reads
  (`position`, `initialPosition`, `color`, `aiSummary`, `groundingSources`)
  are omitted from the node record; the node `size` is stored through the
  connection count `sizeDeg` it is computed from, with `sizeOfDeg` giving
  the real-valued size of the source (`clamp(0.6 + sqrt(deg) * 0.18)`).
-/

/-- JS truthiness of a nullable string: `null`/`undefined` and `""` are falsy. -/
def truthyS : Option String → Bool
  | none => false
  | some s => !(s == "")

/-- JS truthiness of a nullable integer: `null`/`undefined` and `0` are falsy. -/
def truthyI : Option Int → Bool
  | none => false
  | some y => !(y == 0)

/-- An incoming entity of a data batch (an element of `data.nodes` in
`addNewDataToGraph`). -/
structure Ent where
  label : String
  type : String
  description : Option String
  publicationYear : Option Int
  series : Option String
  api_key : Option String
  imageUrl : Option String
deriving Repr, DecidableEq

/-- An incoming edge of a data batch: `source`/`target` are node labels. -/
structure EdgeSpec where
  source : String
  target : String
deriving Repr, DecidableEq

/-- A stored graph node (`state.nodes[id]`).  `sizeDeg` is the connection
count from which the node's `size` is computed. -/
structure GNode where
  id : String
  label : String
  type : String
  description : Option String
  publicationYear : Option Int
  series : Option String
  api_key : Option String
  imageUrl : Option String
  lastUpdated : Int
  sizeDeg : Nat
deriving Repr, DecidableEq

/-- A stored edge (`state.edges[i]`): `source`/`target` are node ids. -/
structure GEdge where
  source : String
  target : String
deriving Repr, DecidableEq

/-- The `connectionMode` field of the store. -/
inductive ConnMode where
  | inactive
  | selectingStart
  | selectingEnd
deriving Repr, DecidableEq

/-- The `visualizationMode` field of the store. -/
inductive VizMode where
  | graph
  | bookgrid
deriving Repr, DecidableEq

/-- A recommendation-wall slot status. -/
inductive SlotStatus where
  | empty
  | suggested
  | locked
deriving Repr, DecidableEq

/-- The `bookData` payload of a grid slot (`findBookForGrid` result). -/
structure BookData where
  title : String
  author : String
  coverUrl : Option String
  apiKey : Option String
deriving Repr, DecidableEq

/-- A recommendation-wall slot. -/
structure GridSlot where
  index : Nat
  status : SlotStatus
  bookData : Option BookData
deriving Repr, DecidableEq

/-- The `bookGrid` sub-state of the store. -/
structure BookGridState where
  slots : List GridSlot
  isSeeded : Bool
  isLoading : Bool
  dismissedBooks : List String
deriving Repr, DecidableEq

/-- The store state (`store.js`), restricted to the fields the verified
operations read or write.  Purely visual fields (camera, loading progress,
filters, timeline) are omitted. -/
structure StoreState where
  nodes : List GNode
  edges : List GEdge
  isFetching : Bool
  selectedNode : Option String
  expandingNodeId : Option String
  caption : Option String
  latestQueryTimestamp : Option Int
  connectionMode : ConnMode
  connectionStartNode : Option String
  connectionEndNode : Option String
  connectionPath : List String
  activePanel : Option String
  visualizationMode : VizMode
  bookGrid : BookGridState
deriving Repr, DecidableEq

/-- The initial store state of `store.js`. -/
def initialStore : StoreState where
  nodes := []
  edges := []
  isFetching := false
  selectedNode := none
  expandingNodeId := none
  caption := none
  latestQueryTimestamp := none
  connectionMode := ConnMode.inactive
  connectionStartNode := none
  connectionEndNode := none
  connectionPath := []
  activePanel := none
  visualizationMode := VizMode.graph
  bookGrid := { slots := [], isSeeded := false, isLoading := false, dismissedBooks := [] }

/-- A data batch handed to `addNewDataToGraph` (parsed LLM output, Open
Library result, or bootstrap file). -/
structure BatchData where
  nodes : List Ent
  edges : List EdgeSpec
  commentary : Option String
deriving Repr, DecidableEq

/-- The composite identity key of an entity: `type:label`. -/
def entId (e : Ent) : String := e.type ++ ":" ++ e.label

/-- Lookup of a stored node by id (`state.nodes[id]`). -/
def findNode (ns : List GNode) (id : String) : Option GNode :=
  ns.find? (fun n => n.id == id)

/-- First stored node with a given label
(`Object.values(state.nodes).find(n => n.label === ...)`). -/
def findByLabel (ns : List GNode) (lbl : String) : Option GNode :=
  ns.find? (fun n => n.label == lbl)

/-- Node colors by type (`nodeColors`); kept abstractly as the lookup the
source performs, since no verified property reads it. -/
def nodeColor (ty : String) : String :=
  if ty == "book" then "#0891b2"
  else if ty == "author" then "#f59e0b"
  else if ty == "theme" then "#2dd4bf"
  else "#ffffff"

/-- Node creation in `addNewDataToGraph` (the `!state.nodes[id]` branch),
minus the omitted visual fields.  A fresh node's `size` is only assigned by
the recompute pass at the end of the batch, so `sizeDeg` starts at `0`. -/
def createNode (e : Ent) (ts : Int) : GNode where
  id := entId e
  label := e.label
  type := e.type
  description := e.description
  publicationYear := e.publicationYear
  series := e.series
  api_key := e.api_key
  imageUrl := e.imageUrl
  lastUpdated := ts
  sizeDeg := 0

/-- The merge branch of `addNewDataToGraph`: update `lastUpdated`, and fill
each of the four merge fields when the incoming value is truthy and the
stored one is falsy. -/
def mergeNode (stored : GNode) (e : Ent) (ts : Int) : GNode :=
  { stored with
    lastUpdated := ts
    publicationYear :=
      if truthyI e.publicationYear && !truthyI stored.publicationYear then
        e.publicationYear
      else stored.publicationYear
    series :=
      if truthyS e.series && !truthyS stored.series then e.series
      else stored.series
    api_key :=
      if truthyS e.api_key && !truthyS stored.api_key then e.api_key
      else stored.api_key
    imageUrl :=
      if truthyS e.imageUrl && !truthyS stored.imageUrl then e.imageUrl
      else stored.imageUrl }

/-- The node phase of `addNewDataToGraph`: the `newNodes.forEach` loop,
creating a node when its identity is absent (recording the new id) and
merging otherwise.  New keys of a JS object append in insertion order. -/
def addNodesPhase (ns : List GNode) (ents : List Ent) (ts : Int) : List GNode × List String :=
  match ents with
  | [] => (ns, [])
  | e :: rest =>
    match findNode ns (entId e) with
    | none =>
      let r := addNodesPhase (ns ++ [createNode e ts]) rest ts
      (r.1, entId e :: r.2)
    | some _ =>
      addNodesPhase (ns.map (fun n => if n.id == entId e then mergeNode n e ts else n)) rest ts

/-- The dedup key of a stored edge (`` `${e.source}->${e.target}` ``). -/
def edgeKey (src tgt : String) : String := src ++ "->" ++ tgt

/-- The `newEdges.forEach` loop of `addNewDataToGraph`: resolve each
incoming edge's labels against all stored nodes, skip unresolved edges, and
insert only if neither direction's key is in the dedup set `keys`. -/
def addEdgesGo (ns : List GNode) (es : List GEdge) (keys : List String) :
    List EdgeSpec → List GEdge
  | [] => es
  | spec :: specs =>
    match findByLabel ns spec.source, findByLabel ns spec.target with
    | some sn, some tn =>
      let k1 := edgeKey sn.id tn.id
      let k2 := edgeKey tn.id sn.id
      if k1 ∈ keys ∨ k2 ∈ keys then addEdgesGo ns es keys specs
      else addEdgesGo ns (es ++ [⟨sn.id, tn.id⟩]) (keys ++ [k1, k2]) specs
    | _, _ => addEdgesGo ns es keys specs

/-- The edge phase of `addNewDataToGraph`: the dedup set is seeded with the
forward keys of all current edges (`existingEdges`). -/
def addEdgesPhase (ns : List GNode) (es : List GEdge) (specs : List EdgeSpec) : List GEdge :=
  addEdgesGo ns es (es.map (fun e => edgeKey e.source e.target)) specs

/-- The connection count of a node id: one increment per edge endpoint
equal to the id (`connectionCounts[edge.source]++; connectionCounts[edge.target]++`). -/
def connectionCount (es : List GEdge) (id : String) : Nat :=
  es.foldl
    (fun c e => c + (if e.source == id then 1 else 0) + (if e.target == id then 1 else 0)) 0

/-- The size-recompute pass of `addNewDataToGraph`: store every node's
connection count (its `size` is `sizeOfDeg` of this count). -/
def recomputeSizes (ns : List GNode) (es : List GEdge) : List GNode :=
  ns.map (fun n => { n with sizeDeg := connectionCount es n.id })

/-- The result record of `addNewDataToGraph`. -/
structure AddResult where
  primaryNodeId : Option String
  newNodeIds : List String
deriving Repr, DecidableEq

/-- The batch-merge operation `addNewDataToGraph(data, timestamp,
sourcePosition, options)` as a store transformer.  `now` stands for the
`Date.now()` fallback.  The `sourcePosition` argument and the enrichment
dispatch only affect omitted visual state and the background scheduler, so
they do not appear here. -/
def addNewDataToGraph (s : StoreState) (data : BatchData) (timestamp : Option Int)
    (now : Int) : StoreState × AddResult :=
  match data.nodes with
  | [] => (s, ⟨none, []⟩)
  | e0 :: _ =>
    let queryTimestamp := timestamp.getD (s.latestQueryTimestamp.getD now)
    let (ns, newIds) := addNodesPhase s.nodes data.nodes queryTimestamp
    let es := addEdgesPhase ns s.edges data.edges
    ({ s with
        caption := data.commentary
        nodes := recomputeSizes ns es
        edges := es },
     ⟨some (entId e0), newIds⟩)

/-- The real-valued node size of the source:
`Math.max(minSize, Math.min(maxSize, baseSize + Math.sqrt(connections) * 0.18))`
with `baseSize = minSize = 0.6`, `maxSize = 1.6`. -/
noncomputable def sizeOfDeg (deg : Nat) : ℝ :=
  max 0.6 (min 1.6 (0.6 + Real.sqrt deg * 0.18))

/-- The size of a stored node. -/
noncomputable def GNode.size (n : GNode) : ℝ := sizeOfDeg n.sizeDeg

/-- The id projection of a node list. -/
def nodeIds (ns : List GNode) : List String := ns.map GNode.id

/-- Uniqueness of stored node identities (`state.nodes` is keyed by id). -/
def uniqueIds (ns : List GNode) : Prop := (nodeIds ns).Nodup

/-- How many stored nodes carry a given id. -/
def countId (ns : List GNode) (id : String) : Nat :=
  (ns.filter (fun n => n.id == id)).length

/-- Two edges connect the same unordered pair of identities. -/
def samePair (e1 e2 : GEdge) : Prop :=
  (e1.source = e2.source ∧ e1.target = e2.target) ∨
    (e1.source = e2.target ∧ e1.target = e2.source)

/-- Every stored edge's endpoints name stored nodes. -/
def edgeEndpointsPresent (s : StoreState) : Prop :=
  ∀ e ∈ s.edges, e.source ∈ nodeIds s.nodes ∧ e.target ∈ nodeIds s.nodes

/-- No unordered pair of identities is stored twice. -/
def edgesPairwiseDistinct (s : StoreState) : Prop :=
  s.edges.Pairwise (fun e1 e2 => ¬ samePair e1 e2)

/-- A sequence of `addNewDataToGraph` calls (batch, explicit timestamp,
`Date.now()` value) applied to the initial store. -/
def runBatches (batches : List (BatchData × Option Int × Int)) : StoreState :=
  batches.foldl (fun s b => (addNewDataToGraph s b.1 b.2.1 b.2.2).1) initialStore

/-- Clearing the connection-finder state (`resetConnectionState`). -/
def resetConnectionState (s : StoreState) : StoreState :=
  { s with
    connectionMode := ConnMode.inactive
    connectionStartNode := none
    connectionEndNode := none
    connectionPath := []
    caption :=
      if (s.caption.getD "").startsWith "Connecting from" then none else s.caption }

/-- The path-finder toggle (`toggleConnectionMode`). -/
def toggleConnectionMode (s : StoreState) : StoreState :=
  if s.connectionMode == ConnMode.inactive then
    { s with
      connectionMode := ConnMode.selectingStart
      selectedNode := none
      connectionPath := [] }
  else
    let s1 := resetConnectionState s
    { s1 with selectedNode := none, caption := none }

/-- An asynchronous continuation launched (without awaiting) by a store
action: the `findConnection(startId, nodeId)` call of `setSelectedNode`, or
the `expandNode(nodeId)` call. -/
inductive Effect where
  | findConnection (startId : String) (endId : Option String)
  | expandNode (id : String)
deriving Repr, DecidableEq

/-- The node-click handler `setSelectedNode(nodeId)`: returns the updated
store and the launched continuations. -/
def setSelectedNode (s : StoreState) (nodeId : Option String) : StoreState × List Effect :=
  if s.isFetching && !(s.expandingNodeId == nodeId) then (s, [])
  else if s.connectionMode == ConnMode.selectingStart then
    ({ s with
        connectionStartNode := nodeId
        connectionMode := ConnMode.selectingEnd
        selectedNode := nodeId }, [])
  else if s.connectionMode == ConnMode.selectingEnd then
    match s.connectionStartNode with
    | some st =>
      if !(st == "") && !(some st == nodeId) then
        ({ s with connectionEndNode := nodeId }, [Effect.findConnection st nodeId])
      else (s, [])
    | none => (s, [])
  else if nodeId == s.selectedNode then ({ s with selectedNode := none }, [])
  else
    match nodeId with
    | some id => ({ s with selectedNode := some id }, [Effect.expandNode id])
    | none => ({ s with selectedNode := none }, [])

/-- The parsed JSON of a connection query: graph data plus the optional
`path` array (its absence makes `resJ.path.map` throw in the source). -/
structure ConnResponse where
  data : BatchData
  path : Option (List String)
deriving Repr, DecidableEq

/-- Outcome of an LLM round trip: a parsed response, or a failure (network
error after retries, or unparsable JSON). -/
inductive LlmResult where
  | ok (resp : ConnResponse)
  | fail
deriving Repr, DecidableEq

/-- Label lookup where the later node wins, as in the `nodesByLabel` reduce
of `findConnection` (later assignments overwrite earlier ones). -/
def lastByLabel (ns : List GNode) (lbl : String) : Option GNode :=
  ns.reverse.find? (fun n => n.label == lbl)

/-- The whole `findConnection(startNodeId, endNodeId)` operation as a
function of the LLM outcome, returning the resulting store and the number
of path queries issued.  `t` is the captured `Date.now()` timestamp. -/
def findConnectionRun (s : StoreState) (startNodeId : String) (endNodeId : Option String)
    (t now : Int) (r : LlmResult) : StoreState × Nat :=
  match findNode s.nodes startNodeId, endNodeId.bind (fun e => findNode s.nodes e) with
  | some startNode, some endNode =>
    let s1 := { s with
      isFetching := true
      caption := some ("Thinking of a connection between \"" ++ startNode.label ++
        "\" and \"" ++ endNode.label ++ "\"...")
      selectedNode := none
      latestQueryTimestamp := some t
      activePanel := some "help"
      visualizationMode := VizMode.graph }
    let s2 :=
      match r with
      | LlmResult.ok resp =>
        let s' := (addNewDataToGraph s1 resp.data (some t) now).1
        match resp.path with
        | some path =>
          let pathIds := path.filterMap (fun lbl => (lastByLabel s'.nodes lbl).map GNode.id)
          { s' with connectionPath := pathIds, caption := resp.data.commentary }
        | none => { s' with caption := some "Sorry, I could not find a connection." }
      | LlmResult.fail => { s1 with caption := some "Sorry, I could not find a connection." }
    ({ s2 with
        isFetching := false
        connectionMode := ConnMode.inactive
        connectionStartNode := none
        connectionEndNode := none }, 1)
  | _, _ => (resetConnectionState s, 0)

/-- The dispatch phase of `sendQuery` (graph mode, non-grounded): reset the
connection state, raise the fetching flag, record the dispatch timestamp. -/
def sendQueryDispatch (s : StoreState) (query : String) (t : Int) : StoreState :=
  let s1 := resetConnectionState s
  { s1 with
    isFetching := true
    selectedNode := none
    caption := some ("Searching for \"" ++ query ++ "\"...")
    latestQueryTimestamp := some t
    activePanel := some "help" }

/-- The resolution phase of `sendQuery` when the library search produced
data: apply the batch with the captured dispatch timestamp `t`, surface the
commentary, select the primary node, clear the fetching flag. -/
def sendQueryResolveLibrary (s : StoreState) (apiData : BatchData) (t now : Int) : StoreState :=
  let r := addNewDataToGraph s apiData (some t) now
  let s1 := { r.1 with caption := apiData.commentary }
  let s2 :=
    match r.2.primaryNodeId with
    | some pid => { s1 with selectedNode := some pid }
    | none => s1
  { s2 with isFetching := false }

/-- The 100 fresh empty grid slots. -/
def emptySlots100 : List GridSlot :=
  (List.range 100).map (fun i => ⟨i, SlotStatus.empty, none⟩)

/-- The `seedGrid(query)` operation as a function of the bibliographic
lookup outcome (`findBookForGrid` returns `null` when nothing matches).
The returned flag records whether `populateGridSuggestions()` was called. -/
def seedGrid (s : StoreState) (result : Option BookData) : StoreState × Bool :=
  let s1 := { s with bookGrid :=
    { s.bookGrid with isLoading := true, slots := emptySlots100, dismissedBooks := [] } }
  match result with
  | some bookData =>
    ({ s1 with bookGrid :=
        { s1.bookGrid with
          slots := s1.bookGrid.slots.map
            (fun sl => if sl.index == 45 then ⟨45, SlotStatus.locked, some bookData⟩ else sl)
          isSeeded := true } }, true)
  | none =>
    ({ s1 with bookGrid := { s1.bookGrid with isLoading := false } }, false)

/-- The state of a `RateLimiter` instance (`utils/rateLimiter.ts`). -/
structure RateLimiter where
  max : Nat
  window : Int
  timestamps : List Int
deriving Repr, DecidableEq

/-- The result record of `RateLimiter.check()`. -/
structure RateLimitResult where
  allowed : Bool
  retryAfter : Option Int
deriving Repr, DecidableEq

/-- Integer `Math.ceil(x / 1000)`. -/
def ceilDiv1000 (x : Int) : Int := -(Int.ediv (-x) 1000)

/-- `RateLimiter.check()`: prune timestamps outside the window, then either
reject with a seconds-granularity `retryAfter`, or record `now` and allow.
`headD 0` stands for `this.timestamps[0]`, taken only when the pruned list
is nonempty (`length ≥ max ≥ 1` for every constructed limiter). -/
def RateLimiter.check (s : RateLimiter) (now : Int) : RateLimiter × RateLimitResult :=
  let ts := s.timestamps.filter (fun t => now - t < s.window)
  if s.max ≤ ts.length then
    let oldest := ts.headD 0
    ({ s with timestamps := ts },
     { allowed := false, retryAfter := some (ceilDiv1000 (s.window - (now - oldest))) })
  else
    ({ s with timestamps := ts ++ [now] }, { allowed := true, retryAfter := none })

/-- The `LRUCache` state (`utils/cache.ts`): two insertion-ordered maps. -/
structure LRUCache (V : Type) where
  max : Nat
  ttl : Int
  cache : List (String × V)
  timestamps : List (String × Int)

/-- The `LRUCache` constructor: `options.max || 100`, `options.ttl || 3600000`
(JS `||`, so a zero option falls back to the default). -/
def LRUCache.new (V : Type) (optMax : Option Nat) (optTtl : Option Int) : LRUCache V where
  max := match optMax with | some m => if m == 0 then 100 else m | none => 100
  ttl := match optTtl with | some t => if t == 0 then 3600000 else t | none => 3600000
  cache := []
  timestamps := []

/-- Keys of an insertion-ordered map. -/
def mapKeys {V : Type} (m : List (String × V)) : List String := m.map Prod.fst

/-- `Map.get`. -/
def mapGet {V : Type} (m : List (String × V)) (k : String) : Option V :=
  (m.find? (fun p => p.1 == k)).map Prod.snd

/-- `Map.has`. -/
def mapHas {V : Type} (m : List (String × V)) (k : String) : Bool :=
  m.any (fun p => p.1 == k)

/-- `Map.delete`. -/
def mapDelete {V : Type} (m : List (String × V)) (k : String) : List (String × V) :=
  m.filter (fun p => !(p.1 == k))

/-- `Map.set`: update in place when the key exists, append otherwise. -/
def mapSet {V : Type} (m : List (String × V)) (k : String) (v : V) : List (String × V) :=
  if mapHas m k then m.map (fun p => if p.1 == k then (k, v) else p) else m ++ [(k, v)]

/-- The TTL expiry test of `get`/`has`: `timestamp && now - timestamp > ttl`
(a zero timestamp is falsy in JS). -/
def ttlExpired (ttl : Int) (now : Int) : Option Int → Bool
  | some t => !(t == 0) && decide (ttl < now - t)
  | none => false

/-- `LRUCache.get(key)`: miss on absence or expiry (purging on expiry),
otherwise refresh recency (delete + re-append) and the timestamp. -/
def LRUCache.get {V : Type} (c : LRUCache V) (k : String) (now : Int) :
    LRUCache V × Option V :=
  if !mapHas c.cache k then (c, none)
  else if ttlExpired c.ttl now (mapGet c.timestamps k) then
    ({ c with cache := mapDelete c.cache k, timestamps := mapDelete c.timestamps k }, none)
  else
    match mapGet c.cache k with
    | some v =>
      ({ c with
          cache := mapDelete c.cache k ++ [(k, v)]
          timestamps := mapSet c.timestamps k now }, some v)
    | none => (c, none)

/-- `LRUCache.set(key, value)`: delete the key if present (to move it to
the end), otherwise evict the least-recently-used entry when at capacity,
then insert. -/
def LRUCache.set {V : Type} (c : LRUCache V) (k : String) (v : V) (now : Int) :
    LRUCache V :=
  if mapHas c.cache k then
    { c with
      cache := mapDelete c.cache k ++ [(k, v)]
      timestamps := mapSet c.timestamps k now }
  else if c.max ≤ c.cache.length then
    match c.cache.head? with
    | some p =>
      { c with
        cache := mapDelete c.cache p.1 ++ [(k, v)]
        timestamps := mapSet (mapDelete c.timestamps p.1) k now }
    | none =>
      { c with cache := c.cache ++ [(k, v)], timestamps := mapSet c.timestamps k now }
  else
    { c with cache := c.cache ++ [(k, v)], timestamps := mapSet c.timestamps k now }

/-- `LRUCache.has(key)`: presence with the same lazy expiry purge as `get`. -/
def LRUCache.has {V : Type} (c : LRUCache V) (k : String) (now : Int) :
    LRUCache V × Bool :=
  if !mapHas c.cache k then (c, false)
  else if ttlExpired c.ttl now (mapGet c.timestamps k) then
    ({ c with cache := mapDelete c.cache k, timestamps := mapDelete c.timestamps k }, false)
  else (c, true)

/-- `LRUCache.delete(key)`. -/
def LRUCache.delete {V : Type} (c : LRUCache V) (k : String) : LRUCache V :=
  { c with cache := mapDelete c.cache k, timestamps := mapDelete c.timestamps k }

/-- `LRUCache.clear()`. -/
def LRUCache.clear {V : Type} (c : LRUCache V) : LRUCache V :=
  { c with cache := [], timestamps := [] }

/-- A public cache operation. -/
inductive CacheOp (V : Type) where
  | get (k : String) (now : Int)
  | set (k : String) (v : V) (now : Int)
  | has (k : String) (now : Int)
  | delete (k : String)
  | clear
deriving Repr

/-- Apply one cache operation (dropping returned values). -/
def applyCacheOp {V : Type} (c : LRUCache V) : CacheOp V → LRUCache V
  | CacheOp.get k now => (LRUCache.get c k now).1
  | CacheOp.set k v now => LRUCache.set c k v now
  | CacheOp.has k now => (LRUCache.has c k now).1
  | CacheOp.delete k => LRUCache.delete c k
  | CacheOp.clear => LRUCache.clear c

/-- Run a sequence of cache operations. -/
def runCacheOps {V : Type} (c : LRUCache V) (ops : List (CacheOp V)) : LRUCache V :=
  ops.foldl applyCacheOp c

/-- The outcome of the substring classification that `retryWithBackoff` and
`fetchOpenLibrary` perform on a caught JS error: each flag records one
`includes(...)` test on the error's string form. -/
structure JsError where
  has429 : Bool
  hasResourceExhausted : Bool
  hasRateLimit : Bool
  has500 : Bool
  hasInternal : Bool
  hasNetwork : Bool
  hasFetch : Bool
deriving Repr, DecidableEq

/-- The rate-limit classification of `retryWithBackoff`. -/
def isRateLimitError (e : JsError) : Bool :=
  e.has429 || e.hasResourceExhausted || e.hasRateLimit

/-- The server-error classification of `retryWithBackoff`. -/
def isServerError (e : JsError) : Bool := e.has500 || e.hasInternal

/-- The retry loop of `retryWithBackoff` (`llm.ts`).  `results i` is the
outcome of the `i`-th invocation of the wrapped operation; the recursion
counts down the remaining loop iterations (`left + 1` remaining means
`i < retries - 1` iff `0 < left`).  Returns the final outcome (`none` for
the fall-through when `retries = 0`), the number of attempts made, and the
list of slept backoff delays. -/
def retryWithBackoffGo {α : Type} (results : Nat → Except JsError α) :
    Nat → Nat → Nat → Nat → Option (Except JsError α) × Nat × List Nat
  | 0, i, _, _ => (none, i, [])
  | left + 1, i, delay, maxDelay =>
    match results i with
    | Except.ok a => (some (Except.ok a), i + 1, [])
    | Except.error e =>
      if (isRateLimitError e || isServerError e) && decide (0 < left) then
        let r := retryWithBackoffGo results left (i + 1) (min (delay * 2) maxDelay) maxDelay
        (r.1, r.2.1, delay :: r.2.2)
      else (some (Except.error e), i + 1, [])

/-- `retryWithBackoff(fn, retries, initialDelay, maxDelay)`. -/
def retryWithBackoff {α : Type} (results : Nat → Except JsError α)
    (retries initialDelay maxDelay : Nat) : Option (Except JsError α) × Nat × List Nat :=
  retryWithBackoffGo results retries 0 initialDelay maxDelay

/-- `fetchOpenLibrary(path)` (`libraryApi.ts`): serve from the cache when
possible; otherwise fetch, and on a network-flavored failure wait and retry
exactly once.  `results i` is the outcome of the `i`-th throttled fetch;
the second component counts fetches actually performed.  The cache-write
and throttling side effects are outside the verified state. -/
def fetchOpenLibrary {α : Type} (cached : Option α) (results : Nat → Except JsError α) :
    Except JsError α × Nat :=
  match cached with
  | some v => (Except.ok v, 0)
  | none =>
    match results 0 with
    | Except.ok d => (Except.ok d, 1)
    | Except.error e =>
      if e.hasNetwork || e.hasFetch then
        match results 1 with
        | Except.ok d => (Except.ok d, 2)
        | Except.error e2 => (Except.error e2, 2)
      else (Except.error e, 1)

/-- `findApiKeyForNode(node)`: only books and authors are looked up; every
failure is caught and becomes `null`.  The oracle's value is the key
extracted from the response (`null` when `docs` is empty); the key
normalization for authors is folded into the oracle.  The second component
counts upstream fetches. -/
def findApiKeyForNode (ty : String) (cached : Option (Option String))
    (results : Nat → Except JsError (Option String)) : Option String × Nat :=
  if ty == "book" || ty == "author" then
    match fetchOpenLibrary cached results with
    | (Except.ok k, n) => (k, n)
    | (Except.error _, n) => (none, n)
  else (none, 0)

/-- The net effect of one `backgroundEnrichNodes` iteration on its node,
given the outcomes of the two lookups: `keyRes` is what
`findApiKeyForNode` returned for this node, `imgRes` what the
type-appropriate `ensureBookImage`/`ensureAuthorImage` returned (both are
total in the source: every upstream failure is caught and yields `null`).
Each write is guarded by JS truthiness of the looked-up value. -/
def enrichOne (n : GNode) (keyRes imgRes : Option String) : GNode :=
  let n1 :=
    if (n.type == "book" || n.type == "author") && !truthyS n.api_key then
      match keyRes with
      | some k => if !(k == "") then { n with api_key := some k } else n
      | none => n
    else n
  if !truthyS n1.imageUrl then
    if n1.type == "author" || n1.type == "book" then
      match imgRes with
      | some u => if !(u == "") then { n1 with imageUrl := some u } else n1
      | none => n1
    else n1
  else n1

/-- `backgroundEnrichNodes(nodeIds)`: sequentially enrich each listed node,
skipping ids that are no longer stored; `okey`/`oimg` give the per-node
outcomes of the two lookup steps. -/
def backgroundEnrichNodes (s : StoreState) (ids : List String)
    (okey oimg : String → Option String) : StoreState :=
  ids.foldl
    (fun st id =>
      match findNode st.nodes id with
      | none => st
      | some _ =>
        { st with nodes :=
            st.nodes.map (fun n => if n.id == id then enrichOne n (okey id) (oimg id) else n) })
    s

/-- The relation between a stored node and its image after any run of merge
steps of one batch: identity, label, type, description and the connection
count are untouched, and every truthy field keeps its value. -/
def MergedFrom (orig cur : GNode) : Prop :=
  cur.id = orig.id ∧ cur.label = orig.label ∧ cur.type = orig.type ∧
  cur.description = orig.description ∧ cur.sizeDeg = orig.sizeDeg ∧
  (truthyI orig.publicationYear = true → cur.publicationYear = orig.publicationYear) ∧
  (truthyS orig.series = true → cur.series = orig.series) ∧
  (truthyS orig.api_key = true → cur.api_key = orig.api_key) ∧
  (truthyS orig.imageUrl = true → cur.imageUrl = orig.imageUrl)

/-- The structural invariant of a cache instance: positive capacity (the
constructor guarantees it), distinct keys, entry count within capacity. -/
def CacheInv {V : Type} (c : LRUCache V) : Prop :=
  1 ≤ c.max ∧ (mapKeys c.cache).Nodup ∧ c.cache.length ≤ c.max

/-- Modelled from the spec wording of the sizing rule, for comparison with
the code: the degree of a node as "the count of edges touching that node",
i.e. the number of stored edges incident to the id. -/
def specTouchingDegree (es : List GEdge) (id : String) : Nat :=
  (es.filter (fun e => e.source == id || e.target == id)).length

/-- Example entity: the book "A" with no optional fields. -/
def entA : Ent := ⟨"A", "book", none, none, none, none, none⟩

/-- Example entity: the book "A" carrying a description. -/
def entAdesc : Ent := ⟨"A", "book", some "d", none, none, none, none⟩

/-- Example stored node for the book "A". -/
def nodeA : GNode := ⟨"book:A", "A", "book", none, none, none, none, none, 0, 0⟩

/-- Example stored node for the book "B". -/
def nodeB : GNode := ⟨"book:B", "B", "book", none, none, none, none, none, 0, 0⟩

/-- A store holding the single node `nodeA`. -/
def oneNodeStore : StoreState := { initialStore with nodes := [nodeA] }

/-- A store holding the nodes `nodeA` and `nodeB`. -/
def twoNodeStore : StoreState := { initialStore with nodes := [nodeA, nodeB] }

/-- A store with a foreground query in flight. -/
def fetchingStore : StoreState := { initialStore with isFetching := true }

/-- A store whose recommendation wall was seeded by an earlier successful
seed (its slots were since cleared by the reseed under test). -/
def seededStore : StoreState :=
  { initialStore with bookGrid :=
      { slots := [], isSeeded := true, isLoading := false, dismissedBooks := [] } }

/-- The store after dispatching a query at time 1 and then a newer one at
time 2 (none resolved yet). -/
def staleS2 : StoreState := sendQueryDispatch (sendQueryDispatch initialStore "q1" 1) "q2" 2

/-- `staleS2` after the stale first query (captured timestamp 1) resolves
with a batch containing the book "A". -/
def staleS3 : StoreState := sendQueryResolveLibrary staleS2 ⟨[entA], [], some "found A"⟩ 1 0

/-- A rate limiter allowing one call per minute that admitted a call at
time 0. -/
def rlExample : RateLimiter := ⟨1, 60000, [0]⟩

/-- The classification of an HTTP 429 failure. -/
def err429 : JsError := ⟨true, false, false, false, false, false, false⟩

/-- The store after the self-loop batch: the book "A" together with an edge
from label "A" to label "A". -/
def selfLoopStore : StoreState :=
  (addNewDataToGraph initialStore ⟨[entA], [⟨"A", "A"⟩], none⟩ (some 1) 0).1

/-- The node the self-loop batch stores: both endpoint increments hit it,
so its connection count is 2. -/
def selfLoopNode : GNode := ⟨"book:A", "A", "book", none, none, none, none, none, 1, 2⟩

/-- The store after the first batch of the merge counterexample: the bare
book "A" at timestamp 1. -/
def c1s1 : StoreState := (addNewDataToGraph initialStore ⟨[entA], [], none⟩ (some 1) 0).1

/-- `c1s1` after a second batch carrying the same identity with a
description, at timestamp 2. -/
def c1s2 : StoreState := (addNewDataToGraph c1s1 ⟨[entAdesc], [], none⟩ (some 2) 0).1

/-- The full path-finder scenario on `twoNodeStore`: toggle, click A, click
B, with the query succeeding with a path whose label resolves to no node. -/
def c5run : StoreState × Nat :=
  findConnectionRun
    (setSelectedNode (setSelectedNode (toggleConnectionMode twoNodeStore)
      (some "book:A")).1 (some "book:B")).1
    "book:A" (some "book:B") 3 0
    (LlmResult.ok ⟨⟨[⟨"C", "theme", none, none, none, none, none⟩], [], some "c"⟩, some ["Zzz"]⟩)


/-! ### Claim C10: node clicks are ignored while a foreground query is in flight -/

/-- C10: if `isFetching` is true and the clicked node id differs from
`expandingNodeId`, `setSelectedNode` returns immediately with the entire
modelled store state unchanged and launches nothing — in particular no
connection-path transition happens. -/
theorem setSelectedNode_ignoredWhileFetching (s : StoreState) (nodeId : Option String)
    (hf : s.isFetching = true) (hx : s.expandingNodeId ≠ nodeId) :
    setSelectedNode s nodeId = (s, []) := by
  have hbe : (s.expandingNodeId == nodeId) = false := by
    simpa using hx
  unfold setSelectedNode
  rw [hf, hbe]
  simp

/-- Witness for C10 at a concrete fetching store and click. -/
theorem setSelectedNode_ignoredWhileFetching_witness :
    setSelectedNode fetchingStore (some "book:A") = (fetchingStore, []) :=
  setSelectedNode_ignoredWhileFetching fetchingStore (some "book:A") rfl (by decide)

/-! ### Claim C7: a failed grid seed issues no recommendation request -/

/-- C7 counterexample: on a store whose wall was seeded earlier,
`seedGrid` with a failed lookup leaves `isSeeded = true` (the claim says it
is `false` afterwards), although `isLoading` is cleared and no
recommendation request is issued. -/
theorem seedGrid_miss_keepsSeeded_cex :
    (seedGrid seededStore none).1.bookGrid.isSeeded = true ∧
    (seedGrid seededStore none).1.bookGrid.isLoading = false ∧
    (seedGrid seededStore none).2 = false :=
  ⟨rfl, rfl, rfl⟩

/-- C7 (amended): when the bibliographic lookup finds no match, `seedGrid`
clears `isLoading`, calls `populateGridSuggestions` on no path, resets the
slots and the dismissal list — and leaves `isSeeded` at its previous value
(so it is `false` exactly when no earlier seed had succeeded). -/
theorem seedGrid_miss_noPopulate (s : StoreState) :
    (seedGrid s none).1.bookGrid.isLoading = false ∧
    (seedGrid s none).2 = false ∧
    (seedGrid s none).1.bookGrid.isSeeded = s.bookGrid.isSeeded ∧
    (seedGrid s none).1.bookGrid.dismissedBooks = [] ∧
    ∀ sl ∈ (seedGrid s none).1.bookGrid.slots,
      sl.status = SlotStatus.empty ∧ sl.bookData = none := by
  refine ⟨rfl, rfl, rfl, rfl, ?_⟩
  intro sl hsl
  have : sl ∈ emptySlots100 := hsl
  simp only [emptySlots100, List.mem_map] at this
  obtain ⟨i, -, h⟩ := this
  rw [← h]
  exact ⟨rfl, rfl⟩

/-! ### Claim C8: rate-limiter rejection and re-admission -/

/-- Math.ceil of a positive quantity divided by 1000 is positive. -/
theorem ceilDiv1000_pos {x : Int} (hx : 0 < x) : 0 < ceilDiv1000 x := by
  unfold ceilDiv1000
  have h1 : Int.ediv (-x) 1000 ≤ Int.ediv (-1) 1000 := Int.ediv_le_ediv (by norm_num) (by omega)
  have h2 : Int.ediv (-1) 1000 = -1 := by decide
  omega

/-- C8 counterexample: with `max = 1`, `window = 60000` and one admission
at time 0, the check at time 1 reports `retryAfter = 60` (seconds, from
`Math.ceil(retryAfter / 1000)`), not the claimed
`window − (now − oldestTimestamp) = 59999`. -/
theorem rateLimiter_retryAfter_units_cex :
    (RateLimiter.check rlExample 1).2.retryAfter = some 60 ∧
    (60 : Int) ≠ rlExample.window - (1 - 0) := by decide

/-- C8 (amended): when the pruned timestamp list still holds `max` entries
the check is rejected with `retryAfter = ceil((window − (now − oldest)) / 1000)`
seconds, which is strictly positive; and once at least `window` has elapsed
since the oldest recorded admission, the next check records a new timestamp
and is allowed again. -/
theorem rateLimiter_check_spec (s : RateLimiter) (now : Int)
    (hmax : 1 ≤ s.max) (hlen : s.timestamps.length ≤ s.max) :
    (s.max ≤ (s.timestamps.filter (fun t => now - t < s.window)).length →
      (RateLimiter.check s now).2.allowed = false ∧
      ∃ r : Int,
        (RateLimiter.check s now).2.retryAfter = some r ∧
        r = ceilDiv1000
          (s.window - (now - (s.timestamps.filter (fun t => now - t < s.window)).headD 0)) ∧
        0 < r) ∧
    (∀ t0 tl, s.timestamps = t0 :: tl → s.window ≤ now - t0 →
      (RateLimiter.check s now).2.allowed = true ∧
      (RateLimiter.check s now).2.retryAfter = none ∧
      (RateLimiter.check s now).1.timestamps =
        s.timestamps.filter (fun t => now - t < s.window) ++ [now]) := by
  constructor
  · intro hfull
    have hres : RateLimiter.check s now =
        ({ s with timestamps := s.timestamps.filter (fun t => now - t < s.window) },
         { allowed := false,
           retryAfter := some (ceilDiv1000 (s.window -
             (now - (s.timestamps.filter (fun t => now - t < s.window)).headD 0))) }) := by
      unfold RateLimiter.check
      rw [if_pos hfull]
    refine ⟨by rw [hres], _, by rw [hres], rfl, ?_⟩
    -- positivity: the oldest surviving timestamp is still inside the window
    have hne : s.timestamps.filter (fun t => now - t < s.window) ≠ [] := by
      intro h
      rw [h] at hfull
      simp at hfull
      omega
    obtain ⟨t0, tl, ht⟩ := List.exists_cons_of_ne_nil hne
    have ht0 : t0 ∈ s.timestamps.filter (fun t => now - t < s.window) := by
      rw [ht]; exact List.mem_cons_self t0 tl
    have ht0w : now - t0 < s.window := by
      have := List.of_mem_filter ht0
      simpa using this
    apply ceilDiv1000_pos
    rw [ht]
    simp only [List.headD_cons]
    omega
  · intro t0 tl ht helapsed
    have hdrop : s.timestamps.filter (fun t => now - t < s.window) =
        tl.filter (fun t => now - t < s.window) := by
      rw [ht]
      simp only [List.filter_cons]
      rw [if_neg (by simp; omega)]
    have hshort : ¬ (s.max ≤ (s.timestamps.filter (fun t => now - t < s.window)).length) := by
      rw [hdrop]
      have h1 : (tl.filter (fun t => now - t < s.window)).length ≤ tl.length :=
        List.length_filter_le _ tl
      have h2 : tl.length + 1 ≤ s.max := by
        have := hlen
        rw [ht] at this
        simpa using this
      omega
    have hres : RateLimiter.check s now =
        ({ s with timestamps := s.timestamps.filter (fun t => now - t < s.window) ++ [now] },
         { allowed := true, retryAfter := none }) := by
      unfold RateLimiter.check
      rw [if_neg hshort]
    exact ⟨by rw [hres], by rw [hres], by rw [hres]⟩

/-- Witness for C8: the rejection branch at the concrete limiter. -/
theorem rateLimiter_check_spec_witness :
    (RateLimiter.check rlExample 1).2.allowed = false :=
  ((rateLimiter_check_spec rlExample 1 (by decide) (by decide)).1 (by decide)).1

/-! ### Claim C3: staleness of foreground query results -/

/-- C3 counterexample: a query dispatched at time 1 resolves after a newer
query was dispatched at time 2 (`latestQueryTimestamp = 2`); its result is
applied all the same — the node store changes, gaining the stale batch's
node stamped with the stale timestamp — instead of being discarded. -/
theorem staleQuery_applied_cex :
    staleS2.latestQueryTimestamp = some 2 ∧
    staleS3.nodes ≠ staleS2.nodes ∧
    countId staleS3.nodes "book:A" = 1 ∧
    (∀ n ∈ staleS3.nodes, n.id = "book:A" → n.lastUpdated = 1) := by decide

/-- C3 (amended): no stale-result discard exists — applying a query result
through `addNewDataToGraph` with its captured timestamp never consults the
latest-dispatched-timestamp value: the produced store (apart from carrying
the untouched `latestQueryTimestamp` field) and the returned ids are the
same whatever `latestQueryTimestamp` holds. -/
theorem addNewDataToGraph_ignores_latestTimestamp (s : StoreState) (data : BatchData)
    (ts now : Int) (lqt : Option Int) :
    addNewDataToGraph { s with latestQueryTimestamp := lqt } data (some ts) now =
      ({ (addNewDataToGraph s data (some ts) now).1 with latestQueryTimestamp := lqt },
       (addNewDataToGraph s data (some ts) now).2) := by
  obtain ⟨dn, de, dc⟩ := data
  cases dn <;> rfl

/-! ### Claim C9: the LRU cache never exceeds its capacity -/

/-- A key is in `mapKeys` exactly when `mapHas` reports it. -/
theorem mapHas_iff_mem_keys {V : Type} (m : List (String × V)) (k : String) :
    mapHas m k = true ↔ k ∈ mapKeys m := by
  simp only [mapHas, mapKeys, List.any_eq_true, List.mem_map, beq_iff_eq]

/-- Deleting a key removes it from the key list. -/
theorem mapKeys_delete_not_mem {V : Type} (m : List (String × V)) (k : String) :
    k ∉ mapKeys (mapDelete m k) := by
  intro hk
  simp only [mapKeys, mapDelete, List.mem_map] at hk
  obtain ⟨p, hp, hpk⟩ := hk
  have := List.of_mem_filter hp
  simp [hpk] at this

/-- Deleting preserves distinctness of keys. -/
theorem mapKeys_delete_nodup {V : Type} {m : List (String × V)} {k : String}
    (h : (mapKeys m).Nodup) : (mapKeys (mapDelete m k)).Nodup :=
  List.Nodup.sublist ((List.filter_sublist m).map Prod.fst) h

/-- Deleting never lengthens the map. -/
theorem mapDelete_length_le {V : Type} (m : List (String × V)) (k : String) :
    (mapDelete m k).length ≤ m.length :=
  List.length_filter_le _ m

/-- Deleting an absent key is the identity. -/
theorem mapDelete_absent {V : Type} {m : List (String × V)} {k : String}
    (h : k ∉ mapKeys m) : mapDelete m k = m := by
  unfold mapDelete
  rw [List.filter_eq_self]
  intro p hp
  simp only [Bool.not_eq_true', beq_eq_false_iff_ne, ne_eq]
  intro hpk
  exact h (by simpa [mapKeys, hpk] using List.mem_map_of_mem Prod.fst hp)


/-- Under distinct keys, deleting a present key removes exactly one entry. -/
theorem mapDelete_length_mem {V : Type} {m : List (String × V)} {k : String}
    (hnd : (mapKeys m).Nodup) (hk : mapHas m k = true) :
    (mapDelete m k).length + 1 = m.length := by
  induction m with
  | nil => simp [mapHas] at hk
  | cons p ps ih =>
    have hnd2 : (mapKeys ps).Nodup := by
      simp only [mapKeys, List.map_cons, List.nodup_cons] at hnd
      exact hnd.2
    have hhead : p.1 ∉ mapKeys ps := by
      simp only [mapKeys, List.map_cons, List.nodup_cons] at hnd
      exact hnd.1
    by_cases hp : p.1 = k
    · have habs : k ∉ mapKeys ps := hp ▸ hhead
      simp only [mapDelete, List.filter_cons]
      rw [if_neg (by simp [hp])]
      rw [show List.filter (fun q => !(q.1 == k)) ps = mapDelete ps k from rfl,
        mapDelete_absent habs]
      simp
    · have hk2 : mapHas ps k = true := by
        simp only [mapHas, List.any_cons, Bool.or_eq_true] at hk
        rcases hk with h | h
        · exact absurd (by simpa using h) hp
        · exact h
      simp only [mapDelete, List.filter_cons]
      rw [if_pos (by simpa using hp)]
      simp only [List.length_cons]
      rw [show List.filter (fun q => !(q.1 == k)) ps = mapDelete ps k from rfl]
      have := ih hnd2 hk2
      omega

/-- Appending a fresh key keeps the key list distinct. -/
theorem mapKeys_append_fresh_nodup {V : Type} {m : List (String × V)} {k : String} (v : V)
    (hnd : (mapKeys m).Nodup) (hk : k ∉ mapKeys m) :
    (mapKeys (m ++ [(k, v)])).Nodup := by
  simp only [mapKeys, List.map_append, List.map_cons, List.map_nil]
  rw [List.nodup_append]
  refine ⟨hnd, by simp, ?_⟩
  intro a ha hb
  simp only [List.mem_singleton] at hb
  subst hb
  exact hk ha

/-- One cache operation preserves the structural invariant. -/
theorem cacheInv_applyOp {V : Type} (c : LRUCache V) (op : CacheOp V)
    (h : CacheInv c) : CacheInv (applyCacheOp c op) := by
  obtain ⟨hmax, hnd, hlen⟩ := h
  cases op with
  | get k now =>
    simp only [applyCacheOp, LRUCache.get]
    by_cases hhas : mapHas c.cache k
    · rw [if_neg (by simp [hhas])]
      by_cases hexp : ttlExpired c.ttl now (mapGet c.timestamps k) = true
      · rw [if_pos hexp]
        exact ⟨hmax, mapKeys_delete_nodup hnd, le_trans (mapDelete_length_le _ _) hlen⟩
      · rw [if_neg hexp]
        cases hv : mapGet c.cache k with
        | none => exact ⟨hmax, hnd, hlen⟩
        | some v =>
          refine ⟨hmax,
            mapKeys_append_fresh_nodup v (mapKeys_delete_nodup hnd)
              (mapKeys_delete_not_mem c.cache k), ?_⟩
          simp only [List.length_append, List.length_cons, List.length_nil]
          have := mapDelete_length_mem hnd hhas
          omega
    · rw [if_pos (by simp [hhas])]
      exact ⟨hmax, hnd, hlen⟩
  | set k v now =>
    simp only [applyCacheOp, LRUCache.set]
    by_cases hhas : mapHas c.cache k
    · rw [if_pos hhas]
      refine ⟨hmax,
        mapKeys_append_fresh_nodup v (mapKeys_delete_nodup hnd)
          (mapKeys_delete_not_mem c.cache k), ?_⟩
      simp only [List.length_append, List.length_cons, List.length_nil]
      have := mapDelete_length_mem hnd hhas
      omega
    · rw [if_neg hhas]
      by_cases hfull : c.max ≤ c.cache.length
      · rw [if_pos hfull]
        cases hh : c.cache.head? with
        | none =>
          exfalso
          have hnil : c.cache = [] := List.head?_eq_none_iff.mp hh
          rw [hnil] at hfull
          simp at hfull
          omega
        | some p =>
          have hpmem : p ∈ c.cache := List.mem_of_mem_head? (by rw [hh]; rfl)
          have hphas : mapHas c.cache p.1 = true := by
            rw [mapHas_iff_mem_keys]
            exact List.mem_map_of_mem Prod.fst hpmem
          have hkfresh : k ∉ mapKeys (mapDelete c.cache p.1) := by
            intro hkin
            have hsub : mapKeys (mapDelete c.cache p.1) ⊆ mapKeys c.cache := by
              intro x hx
              simp only [mapKeys, mapDelete, List.mem_map] at hx ⊢
              obtain ⟨q, hq, hqx⟩ := hx
              exact ⟨q, List.mem_of_mem_filter hq, hqx⟩
            exact hhas ((mapHas_iff_mem_keys _ _).mpr (hsub hkin))
          refine ⟨hmax,
            mapKeys_append_fresh_nodup v (mapKeys_delete_nodup hnd) hkfresh, ?_⟩
          simp only [List.length_append, List.length_cons, List.length_nil]
          have := mapDelete_length_mem hnd hphas
          omega
      · rw [if_neg hfull]
        refine ⟨hmax,
          mapKeys_append_fresh_nodup v hnd
            (fun hkin => hhas ((mapHas_iff_mem_keys _ _).mpr hkin)), ?_⟩
        simp only [List.length_append, List.length_cons, List.length_nil]
        omega
  | has k now =>
    simp only [applyCacheOp, LRUCache.has]
    by_cases hhas : mapHas c.cache k
    · rw [if_neg (by simp [hhas])]
      by_cases hexp : ttlExpired c.ttl now (mapGet c.timestamps k) = true
      · rw [if_pos hexp]
        exact ⟨hmax, mapKeys_delete_nodup hnd, le_trans (mapDelete_length_le _ _) hlen⟩
      · rw [if_neg hexp]
        exact ⟨hmax, hnd, hlen⟩
    · rw [if_pos (by simp [hhas])]
      exact ⟨hmax, hnd, hlen⟩
  | delete k =>
    simp only [applyCacheOp, LRUCache.delete]
    exact ⟨hmax, mapKeys_delete_nodup hnd, le_trans (mapDelete_length_le _ _) hlen⟩
  | clear =>
    simp only [applyCacheOp, LRUCache.clear]
    exact ⟨hmax, by simp [mapKeys], by simp⟩

/-- Appending a fresh key makes it retrievable. -/
theorem mapGet_append_self {V : Type} (m : List (String × V)) (k : String) (v : V)
    (h : k ∉ mapKeys m) : mapGet (m ++ [(k, v)]) k = some v := by
  induction m with
  | nil => simp [mapGet]
  | cons p ps ih =>
    simp only [mapKeys, List.map_cons, List.mem_cons, not_or] at h
    have hne : (p.1 == k) = false := beq_eq_false_iff_ne.mpr (fun hc => h.1 hc.symm)
    simp only [mapGet, List.cons_append]
    rw [List.find?_cons_of_neg _ (by simp [hne])]
    exact ih (by simpa [mapKeys] using h.2)

/-- Appending one key leaves other lookups unchanged. -/
theorem mapGet_append_ne {V : Type} (m : List (String × V)) (k k2 : String) (v : V)
    (h : k2 ≠ k) : mapGet (m ++ [(k, v)]) k2 = mapGet m k2 := by
  have hkk : (k == k2) = false := beq_eq_false_iff_ne.mpr (fun hc => h hc.symm)
  induction m with
  | nil =>
    simp only [List.nil_append, mapGet]
    rw [List.find?_cons_of_neg _ (by simp [hkk])]
  | cons p ps ih =>
    simp only [mapGet, List.cons_append] at ih ⊢
    cases hpk : (p.1 == k2) with
    | true =>
      rw [List.find?_cons_of_pos _ (by simp [hpk]), List.find?_cons_of_pos _ (by simp [hpk])]
    | false =>
      rw [List.find?_cons_of_neg _ (by simp [hpk]), List.find?_cons_of_neg _ (by simp [hpk])]
      exact ih

/-- Deleting one key leaves other lookups unchanged. -/
theorem mapGet_delete_ne {V : Type} (m : List (String × V)) (k k2 : String)
    (h : k2 ≠ k) : mapGet (mapDelete m k) k2 = mapGet m k2 := by
  induction m with
  | nil => rfl
  | cons p ps ih =>
    by_cases hpk : p.1 = k
    · have hne2 : (p.1 == k2) = false := beq_eq_false_iff_ne.mpr (fun hc => h (hc.symm.trans hpk))
      show mapGet ((p :: ps).filter (fun q => !(q.1 == k))) k2 = mapGet (p :: ps) k2
      rw [List.filter_cons, if_neg (by simp [hpk])]
      rw [show List.filter (fun q => !(q.1 == k)) ps = mapDelete ps k from rfl, ih]
      simp only [mapGet]
      rw [List.find?_cons_of_neg _ (by simp [hne2])]
    · rw [show mapDelete (p :: ps) k = p :: mapDelete ps k from by
        simp [mapDelete, List.filter_cons, hpk]]
      simp only [mapGet]
      cases hq : (p.1 == k2) with
      | true =>
        rw [List.find?_cons_of_pos _ (by simp [hq]), List.find?_cons_of_pos _ (by simp [hq])]
      | false =>
        rw [List.find?_cons_of_neg _ (by simp [hq]), List.find?_cons_of_neg _ (by simp [hq])]
        exact ih

/-- The constructor establishes the invariant. -/
theorem cacheInv_new (V : Type) (optMax : Option Nat) (optTtl : Option Int) :
    CacheInv (LRUCache.new V optMax optTtl) := by
  refine ⟨?_, by simp [LRUCache.new, mapKeys], by simp [LRUCache.new]⟩
  cases optMax with
  | none => simp [LRUCache.new]
  | some m =>
    simp only [LRUCache.new]
    by_cases hm : m = 0
    · simp [hm]
    · rw [show (m == 0) = false from by simpa using hm]
      simp
      omega

/-- Any operation sequence preserves the invariant. -/
theorem cacheInv_runOps {V : Type} (ops : List (CacheOp V)) (c : LRUCache V)
    (h : CacheInv c) : CacheInv (runCacheOps c ops) := by
  induction ops generalizing c with
  | nil => exact h
  | cons op ops ih => exact ih _ (cacheInv_applyOp c op h)

/-- No operation changes the configured capacity. -/
theorem applyCacheOp_max {V : Type} (c : LRUCache V) (op : CacheOp V) :
    (applyCacheOp c op).max = c.max := by
  cases op <;>
    simp only [applyCacheOp, LRUCache.get, LRUCache.set, LRUCache.has,
      LRUCache.delete, LRUCache.clear] <;>
    repeat' first | rfl | split

/-- No operation sequence changes the configured capacity. -/
theorem runCacheOps_max {V : Type} (ops : List (CacheOp V)) (c : LRUCache V) :
    (runCacheOps c ops).max = c.max := by
  induction ops generalizing c with
  | nil => rfl
  | cons op ops ih => rw [runCacheOps, List.foldl_cons, ← runCacheOps, ih, applyCacheOp_max]

/-- C9: over every operation sequence on a freshly constructed cache the
entry count never exceeds the configured `max`; and `set` on a key already
present updates that entry in place — same entry count, the key now maps to
the new value, and every other key's lookup is untouched — even at
capacity. -/
theorem lruCache_capacity_and_inPlace (V : Type) :
    (∀ (optMax : Option Nat) (optTtl : Option Int) (ops : List (CacheOp V)),
      (runCacheOps (LRUCache.new V optMax optTtl) ops).cache.length ≤
        (LRUCache.new V optMax optTtl).max) ∧
    (∀ (c : LRUCache V) (k : String) (v : V) (now : Int),
      (mapKeys c.cache).Nodup → mapHas c.cache k = true →
      (LRUCache.set c k v now).cache.length = c.cache.length ∧
      mapGet (LRUCache.set c k v now).cache k = some v ∧
      ∀ k2, k2 ≠ k → mapGet (LRUCache.set c k v now).cache k2 = mapGet c.cache k2) := by
  constructor
  · intro optMax optTtl ops
    have h := (cacheInv_runOps ops _ (cacheInv_new V optMax optTtl)).2.2
    rwa [runCacheOps_max] at h
  · intro c k v now hnd hhas
    have hset : (LRUCache.set c k v now).cache = mapDelete c.cache k ++ [(k, v)] := by
      unfold LRUCache.set
      rw [if_pos hhas]
    refine ⟨?_, ?_, ?_⟩
    · rw [hset]
      simp only [List.length_append, List.length_cons, List.length_nil]
      have := mapDelete_length_mem hnd hhas
      omega
    · rw [hset]
      exact mapGet_append_self _ _ _ (mapKeys_delete_not_mem c.cache k)
    · intro k2 hk2
      rw [hset, mapGet_append_ne _ _ _ _ hk2, mapGet_delete_ne _ _ _ hk2]

/-- Witness for C9: an in-place update on a concrete two-entry cache at
capacity. -/
theorem lruCache_capacity_and_inPlace_witness :
    mapGet (LRUCache.set
      (⟨2, 10, [("a", 1), ("b", 2)], [("a", 0), ("b", 0)]⟩ : LRUCache Nat)
      "a" 5 3).cache "a" = some 5 :=
  ((lruCache_capacity_and_inPlace Nat).2
    ⟨2, 10, [("a", 1), ("b", 2)], [("a", 0), ("b", 0)]⟩ "a" 5 3
    (by decide) (by decide)).2.1

/-! ### Claim C2: no dangling edges, no duplicated unordered pair -/

/-- Merging never changes a node's identity. -/
theorem mergeNode_id (n : GNode) (e : Ent) (ts : Int) : (mergeNode n e ts).id = n.id := rfl

/-- The merge step of the node phase preserves the id list. -/
theorem nodeIds_mergeMap (ns : List GNode) (id0 : String) (e : Ent) (ts : Int) :
    nodeIds (ns.map (fun n => if n.id == id0 then mergeNode n e ts else n)) = nodeIds ns := by
  simp only [nodeIds, List.map_map]
  apply List.map_congr_left
  intro n _
  simp only [Function.comp_apply]
  split <;> rfl

/-- Ids of an appended node list. -/
theorem nodeIds_append (ns : List GNode) (n : GNode) :
    nodeIds (ns ++ [n]) = nodeIds ns ++ [n.id] := by
  simp [nodeIds]

/-- The size-recompute pass preserves the id list. -/
theorem nodeIds_recomputeSizes (ns : List GNode) (es : List GEdge) :
    nodeIds (recomputeSizes ns es) = nodeIds ns := by
  simp only [nodeIds, recomputeSizes, List.map_map]
  apply List.map_congr_left
  intro n _
  rfl

/-- Unfolding the node phase at an absent identity. -/
theorem addNodesPhase_cons_none (ns : List GNode) (e : Ent) (rest : List Ent) (ts : Int)
    (hf : findNode ns (entId e) = none) :
    addNodesPhase ns (e :: rest) ts =
      ((addNodesPhase (ns ++ [createNode e ts]) rest ts).1,
        entId e :: (addNodesPhase (ns ++ [createNode e ts]) rest ts).2) := by
  simp only [addNodesPhase]
  rw [hf]

/-- Unfolding the node phase at a present identity. -/
theorem addNodesPhase_cons_some (ns : List GNode) (e : Ent) (rest : List Ent) (ts : Int)
    (m : GNode) (hf : findNode ns (entId e) = some m) :
    addNodesPhase ns (e :: rest) ts =
      addNodesPhase (ns.map (fun n => if n.id == entId e then mergeNode n e ts else n)) rest ts := by
  simp only [addNodesPhase]
  rw [hf]

/-- The node phase only ever adds identities. -/
theorem addNodesPhase_ids_mono (ents : List Ent) (ns : List GNode) (ts : Int) :
    nodeIds ns ⊆ nodeIds (addNodesPhase ns ents ts).1 := by
  induction ents generalizing ns with
  | nil => exact fun x h => h
  | cons e rest ih =>
    cases hf : findNode ns (entId e) with
    | none =>
      rw [addNodesPhase_cons_none ns e rest ts hf]
      intro x hx
      refine ih (ns ++ [createNode e ts]) ?_
      rw [nodeIds_append]
      exact List.mem_append_left _ hx
    | some m =>
      rw [addNodesPhase_cons_some ns e rest ts m hf]
      intro x hx
      refine ih _ ?_
      rw [nodeIds_mergeMap]
      exact hx

/-- A matching edge of the same unordered pair shares one of the two keys. -/
theorem samePair_edgeKey {a : GEdge} {s t : String} (h : samePair a ⟨s, t⟩) :
    edgeKey a.source a.target = edgeKey s t ∨ edgeKey a.source a.target = edgeKey t s := by
  rcases h with ⟨h1, h2⟩ | ⟨h1, h2⟩
  · left
    simp only at h1 h2
    rw [edgeKey, edgeKey, h1, h2]
  · right
    simp only at h1 h2
    rw [edgeKey, edgeKey, h1, h2]

/-- Invariant of the edge-insertion loop: when every present edge's forward
key is in the dedup set, the loop preserves unordered-pair distinctness and
endpoint containment in the fixed node list. -/
theorem addEdgesGo_inv (ns : List GNode) (specs : List EdgeSpec) :
    ∀ (es : List GEdge) (keys : List String),
      (∀ e ∈ es, edgeKey e.source e.target ∈ keys) →
      es.Pairwise (fun a b => ¬ samePair a b) →
      (∀ e ∈ es, e.source ∈ nodeIds ns ∧ e.target ∈ nodeIds ns) →
      (addEdgesGo ns es keys specs).Pairwise (fun a b => ¬ samePair a b) ∧
      ∀ e ∈ addEdgesGo ns es keys specs, e.source ∈ nodeIds ns ∧ e.target ∈ nodeIds ns := by
  induction specs with
  | nil => intro es keys h1 h2 h3; exact ⟨h2, h3⟩
  | cons spec specs ih =>
    intro es keys h1 h2 h3
    cases hs : findByLabel ns spec.source with
    | none =>
      have : addEdgesGo ns es keys (spec :: specs) = addEdgesGo ns es keys specs := by
        simp only [addEdgesGo, hs]
      rw [this]
      exact ih es keys h1 h2 h3
    | some sn =>
      cases ht : findByLabel ns spec.target with
      | none =>
        have : addEdgesGo ns es keys (spec :: specs) = addEdgesGo ns es keys specs := by
          simp only [addEdgesGo, hs, ht]
        rw [this]
        exact ih es keys h1 h2 h3
      | some tn =>
        by_cases hk : edgeKey sn.id tn.id ∈ keys ∨ edgeKey tn.id sn.id ∈ keys
        · have : addEdgesGo ns es keys (spec :: specs) = addEdgesGo ns es keys specs := by
            simp only [addEdgesGo, hs, ht]
            rw [if_pos hk]
          rw [this]
          exact ih es keys h1 h2 h3
        · have hstep : addEdgesGo ns es keys (spec :: specs) =
              addEdgesGo ns (es ++ [⟨sn.id, tn.id⟩])
                (keys ++ [edgeKey sn.id tn.id, edgeKey tn.id sn.id]) specs := by
            simp only [addEdgesGo, hs, ht]
            rw [if_neg hk]
          rw [hstep]
          apply ih
          · intro e he
            rcases List.mem_append.mp he with h | h
            · exact List.mem_append_left _ (h1 e h)
            · simp only [List.mem_singleton] at h
              subst h
              exact List.mem_append_right _ (by simp)
          · rw [List.pairwise_append]
            refine ⟨h2, by simp, ?_⟩
            intro a ha b hb
            simp only [List.mem_singleton] at hb
            subst hb
            intro hpair
            rcases samePair_edgeKey hpair with hek | hek
            · exact hk (Or.inl (hek ▸ h1 a ha))
            · exact hk (Or.inr (hek ▸ h1 a ha))
          · intro e he
            rcases List.mem_append.mp he with h | h
            · exact h3 e h
            · simp only [List.mem_singleton] at h
              subst h
              constructor
              · exact List.mem_map_of_mem GNode.id (List.mem_of_find?_eq_some hs)
              · exact List.mem_map_of_mem GNode.id (List.mem_of_find?_eq_some ht)

/-- One batch preserves the edge invariants. -/
theorem addNewDataToGraph_edgeInv (s : StoreState) (data : BatchData)
    (timestamp : Option Int) (now : Int)
    (h1 : edgeEndpointsPresent s) (h2 : edgesPairwiseDistinct s) :
    edgeEndpointsPresent (addNewDataToGraph s data timestamp now).1 ∧
    edgesPairwiseDistinct (addNewDataToGraph s data timestamp now).1 := by
  obtain ⟨dn, de, dc⟩ := data
  cases dn with
  | nil => exact ⟨h1, h2⟩
  | cons e0 rest =>
    have hinv := addEdgesGo_inv
      (addNodesPhase s.nodes (e0 :: rest)
        ((some (timestamp.getD (s.latestQueryTimestamp.getD now))).getD 0)).1 de s.edges
      (s.edges.map (fun e => edgeKey e.source e.target))
      (fun e he => List.mem_map_of_mem _ he) h2
      (fun e he => ⟨addNodesPhase_ids_mono _ _ _ (h1 e he).1,
        addNodesPhase_ids_mono _ _ _ (h1 e he).2⟩)
    constructor
    · intro e he
      rw [show (addNewDataToGraph s ⟨e0 :: rest, de, dc⟩ timestamp now).1.nodes =
          recomputeSizes
            (addNodesPhase s.nodes (e0 :: rest) (timestamp.getD (s.latestQueryTimestamp.getD now))).1
            (addNewDataToGraph s ⟨e0 :: rest, de, dc⟩ timestamp now).1.edges from rfl]
      rw [nodeIds_recomputeSizes]
      exact hinv.2 e he
    · exact hinv.1

/-- C2: after every sequence of `addNewDataToGraph` batches from the
initial store, every stored edge's source and target are identities of
stored nodes (no dangling edges), and no unordered pair of identities is
stored twice — an edge is inserted only when neither direction is in the
dedup set and both endpoint labels resolve against the whole graph. -/
theorem addBatch_edge_invariant (batches : List (BatchData × Option Int × Int)) :
    edgeEndpointsPresent (runBatches batches) ∧ edgesPairwiseDistinct (runBatches batches) := by
  suffices h : ∀ (bs : List (BatchData × Option Int × Int)) (s : StoreState),
      edgeEndpointsPresent s → edgesPairwiseDistinct s →
      edgeEndpointsPresent (bs.foldl (fun s b => (addNewDataToGraph s b.1 b.2.1 b.2.2).1) s) ∧
      edgesPairwiseDistinct (bs.foldl (fun s b => (addNewDataToGraph s b.1 b.2.1 b.2.2).1) s) by
    exact h batches initialStore (fun e he => absurd he (List.not_mem_nil e))
      List.Pairwise.nil
  intro bs
  induction bs with
  | nil => intro s h1 h2; exact ⟨h1, h2⟩
  | cons b bs ih =>
    intro s h1 h2
    have hstep := addNewDataToGraph_edgeInv s b.1 b.2.1 b.2.2 h1 h2
    exact ih _ hstep.1 hstep.2

/-! ### Claim C4: node size as a function of degree -/

/-- After one batch every stored connection count matches the final edge
set (the recompute pass runs after all insertions). -/
theorem sizeDeg_addNewDataToGraph (s : StoreState) (data : BatchData)
    (timestamp : Option Int) (now : Int)
    (h : ∀ n ∈ s.nodes, n.sizeDeg = connectionCount s.edges n.id) :
    ∀ n ∈ (addNewDataToGraph s data timestamp now).1.nodes,
      n.sizeDeg = connectionCount (addNewDataToGraph s data timestamp now).1.edges n.id := by
  obtain ⟨dn, de, dc⟩ := data
  cases dn with
  | nil => exact h
  | cons e0 rest =>
    intro m hm
    have hm2 : m ∈ recomputeSizes
        (addNodesPhase s.nodes (e0 :: rest)
          (timestamp.getD (s.latestQueryTimestamp.getD now))).1
        (addNewDataToGraph s ⟨e0 :: rest, de, dc⟩ timestamp now).1.edges := hm
    simp only [recomputeSizes, List.mem_map] at hm2
    obtain ⟨n, -, hn⟩ := hm2
    rw [← hn]

/-- C4 (amended): after every sequence of batches each node's stored
connection count equals the per-endpoint count over the final edge set (a
self-loop contributes twice), the node's size is `sizeOfDeg` of that count,
and `sizeOfDeg` — `clamp(0.6 + sqrt(deg) * 0.18, 0.6, 1.6)` — is a
deterministic, non-decreasing function of the count that always lies within
`[0.6, 1.6]`. -/
theorem nodeSize_formula (batches : List (BatchData × Option Int × Int)) :
    (∀ n ∈ (runBatches batches).nodes,
      n.size = sizeOfDeg (connectionCount (runBatches batches).edges n.id) ∧
      n.sizeDeg = connectionCount (runBatches batches).edges n.id) ∧
    (∀ d e : Nat, d ≤ e → sizeOfDeg d ≤ sizeOfDeg e) ∧
    (∀ d : Nat, 0.6 ≤ sizeOfDeg d ∧ sizeOfDeg d ≤ 1.6) := by
  refine ⟨?_, ?_, ?_⟩
  · suffices h : ∀ (bs : List (BatchData × Option Int × Int)) (s : StoreState),
        (∀ n ∈ s.nodes, n.sizeDeg = connectionCount s.edges n.id) →
        ∀ n ∈ (bs.foldl (fun s b => (addNewDataToGraph s b.1 b.2.1 b.2.2).1) s).nodes,
          n.sizeDeg = connectionCount
            (bs.foldl (fun s b => (addNewDataToGraph s b.1 b.2.1 b.2.2).1) s).edges n.id by
      intro n hn
      have hd := h batches initialStore (fun n hn => absurd hn (List.not_mem_nil n)) n hn
      exact ⟨by rw [GNode.size, hd]; rfl, hd⟩
    intro bs
    induction bs with
    | nil => intro s h; exact h
    | cons b bs ih =>
      intro s h
      exact ih _ (sizeDeg_addNewDataToGraph s b.1 b.2.1 b.2.2 h)
  · intro d e h
    unfold sizeOfDeg
    refine max_le_max le_rfl (min_le_min le_rfl ?_)
    have hs : Real.sqrt d ≤ Real.sqrt e := Real.sqrt_le_sqrt (by exact_mod_cast h)
    nlinarith
  · intro d
    constructor
    · exact le_max_left _ _
    · exact max_le (by norm_num) (min_le_left _ _)

/-- Witness for C4: monotonicity applied at degrees 0 and 1. -/
theorem nodeSize_formula_witness : sizeOfDeg 0 ≤ sizeOfDeg 1 :=
  (nodeSize_formula []).2.1 0 1 (by decide)

/-- C4 counterexample: a batch whose edge joins the label "A" to itself
stores a self-loop; only one edge touches the node, but the stored
connection count is 2 and the computed size is `sizeOfDeg 2`, not the
claimed `sizeOfDeg` of the count of touching edges. -/
theorem nodeSize_selfLoop_cex :
    selfLoopNode ∈ selfLoopStore.nodes ∧
    specTouchingDegree selfLoopStore.edges selfLoopNode.id = 1 ∧
    selfLoopNode.sizeDeg = 2 ∧
    selfLoopNode.size ≠ sizeOfDeg (specTouchingDegree selfLoopStore.edges selfLoopNode.id) := by
  refine ⟨by decide, by decide, rfl, ?_⟩
  rw [show specTouchingDegree selfLoopStore.edges selfLoopNode.id = 1 from by decide]
  show sizeOfDeg 2 ≠ sizeOfDeg 1
  have hs2a : (1 : ℝ) < Real.sqrt 2 := by
    nlinarith [Real.sq_sqrt (by norm_num : (0:ℝ) ≤ 2), Real.sqrt_nonneg 2]
  have hs2b : Real.sqrt 2 < 1.5 := by
    nlinarith [Real.sq_sqrt (by norm_num : (0:ℝ) ≤ 2), Real.sqrt_nonneg 2]
  have h1 : sizeOfDeg 1 = 0.78 := by
    unfold sizeOfDeg
    rw [show ((1 : Nat) : ℝ) = 1 by norm_num, Real.sqrt_one]
    norm_num [min_def, max_def]
  have h2 : sizeOfDeg 2 = 0.6 + Real.sqrt 2 * 0.18 := by
    unfold sizeOfDeg
    rw [show ((2 : Nat) : ℝ) = 2 by norm_num]
    rw [min_eq_right (by nlinarith), max_eq_right (by nlinarith)]
  rw [h1, h2]
  intro heq
  nlinarith

/-! ### Claim C1: merge semantics of an existing identity -/

/-- A node is absent exactly when its id is not stored. -/
theorem findNode_none_iff {ns : List GNode} {id : String} :
    findNode ns id = none ↔ id ∉ nodeIds ns := by
  unfold findNode
  rw [List.find?_eq_none]
  constructor
  · intro h hmem
    simp only [nodeIds, List.mem_map] at hmem
    obtain ⟨n, hn, hid⟩ := hmem
    have hne := h n hn
    simp only [beq_iff_eq] at hne
    exact hne hid
  · intro h n hn
    simp only [beq_iff_eq]
    intro hid
    exact h (by simp only [nodeIds, List.mem_map]; exact ⟨n, hn, hid⟩)

/-- `MergedFrom` is reflexive. -/
theorem MergedFrom.refl (n : GNode) : MergedFrom n n :=
  ⟨rfl, rfl, rfl, rfl, rfl, fun _ => rfl, fun _ => rfl, fun _ => rfl, fun _ => rfl⟩

/-- `MergedFrom` composes along successive merge steps. -/
theorem MergedFrom.trans {a b c : GNode} (h1 : MergedFrom a b) (h2 : MergedFrom b c) :
    MergedFrom a c := by
  obtain ⟨i1, l1, t1, d1, z1, q1, r1, k1, u1⟩ := h1
  obtain ⟨i2, l2, t2, d2, z2, q2, r2, k2, u2⟩ := h2
  refine ⟨i2.trans i1, l2.trans l1, t2.trans t1, d2.trans d1, z2.trans z1, ?_, ?_, ?_, ?_⟩
  · intro hp
    have hb : truthyI b.publicationYear = true := by rw [q1 hp]; exact hp
    exact (q2 hb).trans (q1 hp)
  · intro hp
    have hb : truthyS b.series = true := by rw [r1 hp]; exact hp
    exact (r2 hb).trans (r1 hp)
  · intro hp
    have hb : truthyS b.api_key = true := by rw [k1 hp]; exact hp
    exact (k2 hb).trans (k1 hp)
  · intro hp
    have hb : truthyS b.imageUrl = true := by rw [u1 hp]; exact hp
    exact (u2 hb).trans (u1 hp)

/-- One merge step realizes `MergedFrom`. -/
theorem MergedFrom_mergeNode (n : GNode) (e : Ent) (ts : Int) :
    MergedFrom n (mergeNode n e ts) := by
  refine ⟨rfl, rfl, rfl, rfl, rfl, ?_, ?_, ?_, ?_⟩
  · intro hp; simp [mergeNode, hp]
  · intro hp; simp [mergeNode, hp]
  · intro hp; simp [mergeNode, hp]
  · intro hp; simp [mergeNode, hp]

/-- A falsy stored publication year is filled from a truthy incoming one. -/
theorem mergeNode_fill_pub {n : GNode} {e : Ent} (ts : Int)
    (hn : truthyI n.publicationYear = false) (he : truthyI e.publicationYear = true) :
    (mergeNode n e ts).publicationYear = e.publicationYear := by
  simp [mergeNode, hn, he]

/-- A falsy stored series is filled from a truthy incoming one. -/
theorem mergeNode_fill_series {n : GNode} {e : Ent} (ts : Int)
    (hn : truthyS n.series = false) (he : truthyS e.series = true) :
    (mergeNode n e ts).series = e.series := by
  simp [mergeNode, hn, he]

/-- A falsy stored api key is filled from a truthy incoming one. -/
theorem mergeNode_fill_key {n : GNode} {e : Ent} (ts : Int)
    (hn : truthyS n.api_key = false) (he : truthyS e.api_key = true) :
    (mergeNode n e ts).api_key = e.api_key := by
  simp [mergeNode, hn, he]

/-- A falsy stored image URL is filled from a truthy incoming one. -/
theorem mergeNode_fill_img {n : GNode} {e : Ent} (ts : Int)
    (hn : truthyS n.imageUrl = false) (he : truthyS e.imageUrl = true) :
    (mergeNode n e ts).imageUrl = e.imageUrl := by
  simp [mergeNode, hn, he]

/-- Counting an id commutes with id-preserving rewrites of the node list. -/
theorem countId_map_idPreserving (ns : List GNode) (f : GNode → GNode)
    (hf : ∀ n, (f n).id = n.id) (id : String) : countId (ns.map f) id = countId ns id := by
  unfold countId
  rw [List.filter_map, List.length_map]
  congr 1
  apply List.filter_congr
  intro n _
  simp [Function.comp, hf n]

/-- Counting an id over an appended node. -/
theorem countId_append (ns : List GNode) (n : GNode) (id : String) :
    countId (ns ++ [n]) id = countId ns id + (if n.id == id then 1 else 0) := by
  unfold countId
  rw [List.filter_append]
  cases h : (n.id == id) <;> simp [List.filter_cons, h]

/-- The recompute pass does not change id multiplicities. -/
theorem countId_recomputeSizes (ns : List GNode) (es : List GEdge) (id : String) :
    countId (recomputeSizes ns es) id = countId ns id :=
  countId_map_idPreserving ns
    (fun n => { n with sizeDeg := connectionCount es n.id }) (fun _ => rfl) id

/-- The node phase preserves the multiplicity of every already-stored id. -/
theorem addNodesPhase_countId (ents : List Ent) :
    ∀ (ms : List GNode) (ts : Int) (id : String), id ∈ nodeIds ms →
      countId (addNodesPhase ms ents ts).1 id = countId ms id := by
  induction ents with
  | nil => intro ms ts id _; rfl
  | cons e rest ih =>
    intro ms ts id hid
    cases hf : findNode ms (entId e) with
    | none =>
      rw [addNodesPhase_cons_none ms e rest ts hf]
      have hne : (createNode e ts).id ≠ id := by
        intro hc
        exact (findNode_none_iff.mp hf)
          (by rw [show entId e = (createNode e ts).id from rfl, hc]; exact hid)
      have h1 := ih (ms ++ [createNode e ts]) ts id
        (by rw [nodeIds_append]; exact List.mem_append_left _ hid)
      rw [h1, countId_append]
      rw [show ((createNode e ts).id == id) = false from beq_eq_false_iff_ne.mpr hne]
      simp
    | some m0 =>
      rw [addNodesPhase_cons_some ms e rest ts m0 hf]
      have hfn : ∀ n : GNode,
          ((if n.id == entId e then mergeNode n e ts else n) : GNode).id = n.id := by
        intro n
        split <;> rfl
      have h1 := ih (ms.map (fun n => if n.id == entId e then mergeNode n e ts else n)) ts id
        (by rw [nodeIds_mergeMap]; exact hid)
      rw [h1]
      exact countId_map_idPreserving ms _ hfn id

/-- Every node of the recompute pass keeps all fields but the count. -/
theorem recomputeSizes_mem {ns : List GNode} (es : List GEdge) {n : GNode} (h : n ∈ ns) :
    ∃ m ∈ recomputeSizes ns es, m.id = n.id ∧ m.label = n.label ∧ m.type = n.type ∧
      m.description = n.description ∧ m.publicationYear = n.publicationYear ∧
      m.series = n.series ∧ m.api_key = n.api_key ∧ m.imageUrl = n.imageUrl ∧
      m.lastUpdated = n.lastUpdated :=
  ⟨{ n with sizeDeg := connectionCount es n.id }, List.mem_map_of_mem _ h,
    rfl, rfl, rfl, rfl, rfl, rfl, rfl, rfl, rfl⟩

/-- The node phase of one batch, followed from an already-stored node: its
image keeps id, label, type, description and truthy fields; it is stamped
with the batch timestamp exactly when some batch entity matches its
identity; and each falsy field becomes truthy when a matching entity
carries a truthy value for it. -/
theorem addNodesPhase_merge_facts (ents : List Ent) :
    ∀ (ms : List GNode) (ts : Int) (n : GNode), n ∈ ms → uniqueIds ms →
      ∃ m ∈ (addNodesPhase ms ents ts).1,
        MergedFrom n m ∧
        ((∃ e ∈ ents, entId e = n.id) → m.lastUpdated = ts) ∧
        ((∀ e ∈ ents, entId e ≠ n.id) → m.lastUpdated = n.lastUpdated) ∧
        (truthyI n.publicationYear = false →
          (∃ e ∈ ents, entId e = n.id ∧ truthyI e.publicationYear = true) →
          truthyI m.publicationYear = true) ∧
        (truthyS n.series = false →
          (∃ e ∈ ents, entId e = n.id ∧ truthyS e.series = true) →
          truthyS m.series = true) ∧
        (truthyS n.api_key = false →
          (∃ e ∈ ents, entId e = n.id ∧ truthyS e.api_key = true) →
          truthyS m.api_key = true) ∧
        (truthyS n.imageUrl = false →
          (∃ e ∈ ents, entId e = n.id ∧ truthyS e.imageUrl = true) →
          truthyS m.imageUrl = true) := by
  induction ents with
  | nil =>
    intro ms ts n hn _
    refine ⟨n, hn, MergedFrom.refl n, ?_, fun _ => rfl, ?_, ?_, ?_, ?_⟩
    · rintro ⟨e, he, -⟩
      exact absurd he (List.not_mem_nil e)
    · rintro - ⟨e, he, -⟩
      exact absurd he (List.not_mem_nil e)
    · rintro - ⟨e, he, -⟩
      exact absurd he (List.not_mem_nil e)
    · rintro - ⟨e, he, -⟩
      exact absurd he (List.not_mem_nil e)
    · rintro - ⟨e, he, -⟩
      exact absurd he (List.not_mem_nil e)
  | cons e rest ih =>
    intro ms ts n hn hu
    cases hf : findNode ms (entId e) with
    | none =>
      rw [addNodesPhase_cons_none ms e rest ts hf]
      have hne : entId e ≠ n.id := by
        intro hc
        have hmem : n.id ∈ nodeIds ms := List.mem_map_of_mem GNode.id hn
        rw [← hc] at hmem
        exact (findNode_none_iff.mp hf) hmem
      have hu2 : uniqueIds (ms ++ [createNode e ts]) := by
        unfold uniqueIds
        rw [nodeIds_append, List.nodup_append]
        refine ⟨hu, by simp, ?_⟩
        intro a ha hb
        simp only [List.mem_singleton] at hb
        subst hb
        exact (findNode_none_iff.mp hf) ha
      obtain ⟨m, hm, hmf, c1, c2, p1, p2, p3, p4⟩ :=
        ih (ms ++ [createNode e ts]) ts n (List.mem_append_left _ hn) hu2
      refine ⟨m, hm, hmf, ?_, ?_, ?_, ?_, ?_, ?_⟩
      · rintro ⟨e2, he2, hid2⟩
        rcases List.mem_cons.mp he2 with rfl | h
        · exact absurd hid2 hne
        · exact c1 ⟨e2, h, hid2⟩
      · intro h
        exact c2 (fun e2 he2 => h e2 (List.mem_cons_of_mem e he2))
      · rintro ht ⟨e2, he2, hid2, hty2⟩
        rcases List.mem_cons.mp he2 with rfl | h
        · exact absurd hid2 hne
        · exact p1 ht ⟨e2, h, hid2, hty2⟩
      · rintro ht ⟨e2, he2, hid2, hty2⟩
        rcases List.mem_cons.mp he2 with rfl | h
        · exact absurd hid2 hne
        · exact p2 ht ⟨e2, h, hid2, hty2⟩
      · rintro ht ⟨e2, he2, hid2, hty2⟩
        rcases List.mem_cons.mp he2 with rfl | h
        · exact absurd hid2 hne
        · exact p3 ht ⟨e2, h, hid2, hty2⟩
      · rintro ht ⟨e2, he2, hid2, hty2⟩
        rcases List.mem_cons.mp he2 with rfl | h
        · exact absurd hid2 hne
        · exact p4 ht ⟨e2, h, hid2, hty2⟩
    | some m0 =>
      rw [addNodesPhase_cons_some ms e rest ts m0 hf]
      have him : (if n.id == entId e then mergeNode n e ts else n) ∈
          ms.map (fun n2 => if n2.id == entId e then mergeNode n2 e ts else n2) :=
        List.mem_map_of_mem _ hn
      have hu2 : uniqueIds
          (ms.map (fun n2 => if n2.id == entId e then mergeNode n2 e ts else n2)) := by
        unfold uniqueIds
        rw [nodeIds_mergeMap]
        exact hu
      obtain ⟨m, hm, hmf, c1, c2, p1, p2, p3, p4⟩ := ih _ ts _ him hu2
      by_cases hid : n.id = entId e
      · have hn0 : (if n.id == entId e then mergeNode n e ts else n) = mergeNode n e ts := by
          rw [if_pos (by simpa using hid)]
        rw [hn0] at hmf c1 c2 p1 p2 p3 p4
        refine ⟨m, hm, (MergedFrom_mergeNode n e ts).trans hmf, ?_, ?_, ?_, ?_, ?_, ?_⟩
        · intro _
          by_cases hr : ∃ e2 ∈ rest, entId e2 = (mergeNode n e ts).id
          · exact c1 hr
          · have hkeep := c2 (fun e2 he2 hc => hr ⟨e2, he2, hc⟩)
            rw [hkeep]
            rfl
        · intro h
          exact absurd hid.symm (h e (List.mem_cons_self e rest))
        · rintro ht ⟨e2, he2, hid2, hty2⟩
          by_cases hmp : truthyI (mergeNode n e ts).publicationYear = true
          · obtain ⟨-, -, -, -, -, q1, -, -, -⟩ := hmf
            rw [q1 hmp]
            exact hmp
          · rcases List.mem_cons.mp he2 with rfl | h
            · exact absurd ((mergeNode_fill_pub ts ht hty2) ▸ hty2) hmp
            · exact p1 (by simpa using hmp) ⟨e2, h, hid2, hty2⟩
        · rintro ht ⟨e2, he2, hid2, hty2⟩
          by_cases hmp : truthyS (mergeNode n e ts).series = true
          · obtain ⟨-, -, -, -, -, -, r1, -, -⟩ := hmf
            rw [r1 hmp]
            exact hmp
          · rcases List.mem_cons.mp he2 with rfl | h
            · exact absurd ((mergeNode_fill_series ts ht hty2) ▸ hty2) hmp
            · exact p2 (by simpa using hmp) ⟨e2, h, hid2, hty2⟩
        · rintro ht ⟨e2, he2, hid2, hty2⟩
          by_cases hmp : truthyS (mergeNode n e ts).api_key = true
          · obtain ⟨-, -, -, -, -, -, -, k1, -⟩ := hmf
            rw [k1 hmp]
            exact hmp
          · rcases List.mem_cons.mp he2 with rfl | h
            · exact absurd ((mergeNode_fill_key ts ht hty2) ▸ hty2) hmp
            · exact p3 (by simpa using hmp) ⟨e2, h, hid2, hty2⟩
        · rintro ht ⟨e2, he2, hid2, hty2⟩
          by_cases hmp : truthyS (mergeNode n e ts).imageUrl = true
          · obtain ⟨-, -, -, -, -, -, -, -, u1⟩ := hmf
            rw [u1 hmp]
            exact hmp
          · rcases List.mem_cons.mp he2 with rfl | h
            · exact absurd ((mergeNode_fill_img ts ht hty2) ▸ hty2) hmp
            · exact p4 (by simpa using hmp) ⟨e2, h, hid2, hty2⟩
      · have hn0 : (if n.id == entId e then mergeNode n e ts else n) = n := by
          rw [if_neg (by simpa using hid)]
        rw [hn0] at hmf c1 c2 p1 p2 p3 p4
        refine ⟨m, hm, hmf, ?_, ?_, ?_, ?_, ?_, ?_⟩
        · rintro ⟨e2, he2, hid2⟩
          rcases List.mem_cons.mp he2 with rfl | h
          · exact absurd hid2.symm hid
          · exact c1 ⟨e2, h, hid2⟩
        · intro h
          exact c2 (fun e2 he2 => h e2 (List.mem_cons_of_mem e he2))
        · rintro ht ⟨e2, he2, hid2, hty2⟩
          rcases List.mem_cons.mp he2 with rfl | h
          · exact absurd hid2.symm hid
          · exact p1 ht ⟨e2, h, hid2, hty2⟩
        · rintro ht ⟨e2, he2, hid2, hty2⟩
          rcases List.mem_cons.mp he2 with rfl | h
          · exact absurd hid2.symm hid
          · exact p2 ht ⟨e2, h, hid2, hty2⟩
        · rintro ht ⟨e2, he2, hid2, hty2⟩
          rcases List.mem_cons.mp he2 with rfl | h
          · exact absurd hid2.symm hid
          · exact p3 ht ⟨e2, h, hid2, hty2⟩
        · rintro ht ⟨e2, he2, hid2, hty2⟩
          rcases List.mem_cons.mp he2 with rfl | h
          · exact absurd hid2.symm hid
          · exact p4 ht ⟨e2, h, hid2, hty2⟩

/-- C1 (amended): a batch never creates a second node for a stored
(type,label) identity (its multiplicity is preserved); for every stored
node the result holds a node of the same identity whose label, type and
description are untouched, whose truthy fields keep their values (so no
truthy field is ever overwritten, in particular never by null), whose
`lastUpdated` is set to the batch timestamp exactly when some batch entity
matches the identity, and whose falsy `publicationYear`/`series`/
`api_key`/`imageUrl` are filled whenever a matching entity carries a
truthy value — `description` and all other fields are never merged. -/
theorem addBatch_merge_semantics (s : StoreState) (data : BatchData) (ts now : Int)
    (hu : uniqueIds s.nodes) :
    (∀ id ∈ nodeIds s.nodes,
      countId (addNewDataToGraph s data (some ts) now).1.nodes id = countId s.nodes id) ∧
    (∀ n ∈ s.nodes,
      ∃ m ∈ (addNewDataToGraph s data (some ts) now).1.nodes,
        m.id = n.id ∧ m.label = n.label ∧ m.type = n.type ∧
        m.description = n.description ∧
        (truthyI n.publicationYear = true → m.publicationYear = n.publicationYear) ∧
        (truthyS n.series = true → m.series = n.series) ∧
        (truthyS n.api_key = true → m.api_key = n.api_key) ∧
        (truthyS n.imageUrl = true → m.imageUrl = n.imageUrl) ∧
        ((∃ e ∈ data.nodes, entId e = n.id) → m.lastUpdated = ts) ∧
        ((∀ e ∈ data.nodes, entId e ≠ n.id) → m.lastUpdated = n.lastUpdated) ∧
        (truthyI n.publicationYear = false →
          (∃ e ∈ data.nodes, entId e = n.id ∧ truthyI e.publicationYear = true) →
          truthyI m.publicationYear = true) ∧
        (truthyS n.series = false →
          (∃ e ∈ data.nodes, entId e = n.id ∧ truthyS e.series = true) →
          truthyS m.series = true) ∧
        (truthyS n.api_key = false →
          (∃ e ∈ data.nodes, entId e = n.id ∧ truthyS e.api_key = true) →
          truthyS m.api_key = true) ∧
        (truthyS n.imageUrl = false →
          (∃ e ∈ data.nodes, entId e = n.id ∧ truthyS e.imageUrl = true) →
          truthyS m.imageUrl = true)) := by
  obtain ⟨dn, de, dc⟩ := data
  cases dn with
  | nil =>
    constructor
    · intro id _
      rfl
    · intro n hn
      refine ⟨n, hn, rfl, rfl, rfl, rfl, fun _ => rfl, fun _ => rfl, fun _ => rfl, fun _ => rfl,
        ?_, fun _ => rfl, ?_, ?_, ?_, ?_⟩
      · rintro ⟨e, he, -⟩
        exact absurd he (List.not_mem_nil e)
      · rintro - ⟨e, he, -⟩
        exact absurd he (List.not_mem_nil e)
      · rintro - ⟨e, he, -⟩
        exact absurd he (List.not_mem_nil e)
      · rintro - ⟨e, he, -⟩
        exact absurd he (List.not_mem_nil e)
      · rintro - ⟨e, he, -⟩
        exact absurd he (List.not_mem_nil e)
  | cons e0 rest =>
    constructor
    · intro id hid
      have h1 : (addNewDataToGraph s ⟨e0 :: rest, de, dc⟩ (some ts) now).1.nodes =
          recomputeSizes (addNodesPhase s.nodes (e0 :: rest) ts).1
            (addNewDataToGraph s ⟨e0 :: rest, de, dc⟩ (some ts) now).1.edges := rfl
      rw [h1, countId_recomputeSizes, addNodesPhase_countId (e0 :: rest) s.nodes ts id hid]
    · intro n hn
      obtain ⟨m, hm, hmf, c1, c2, p1, p2, p3, p4⟩ :=
        addNodesPhase_merge_facts (e0 :: rest) s.nodes ts n hn hu
      obtain ⟨mid, mlabel, mtype, mdesc, -, mpub, mser, mkey, mimg⟩ := hmf
      obtain ⟨m2, hm2, e1, e2, e3, e4, e5, e6, e7, e8, e9⟩ :=
        recomputeSizes_mem
          ((addNewDataToGraph s ⟨e0 :: rest, de, dc⟩ (some ts) now).1.edges) hm
      refine ⟨m2, hm2, e1.trans mid, e2.trans mlabel, e3.trans mtype, e4.trans mdesc,
        ?_, ?_, ?_, ?_, ?_, ?_, ?_, ?_, ?_, ?_⟩
      · intro h
        rw [e5]
        exact mpub h
      · intro h
        rw [e6]
        exact mser h
      · intro h
        rw [e7]
        exact mkey h
      · intro h
        rw [e8]
        exact mimg h
      · intro h
        rw [e9]
        exact c1 h
      · intro h
        rw [e9]
        exact c2 h
      · intro ht hex
        rw [e5]
        exact p1 ht hex
      · intro ht hex
        rw [e6]
        exact p2 ht hex
      · intro ht hex
        rw [e7]
        exact p3 ht hex
      · intro ht hex
        rw [e8]
        exact p4 ht hex

/-- Witness for C1: merging a duplicate identity into a one-node store
keeps its multiplicity at one. -/
theorem addBatch_merge_semantics_witness :
    countId (addNewDataToGraph oneNodeStore ⟨[entAdesc], [], none⟩ (some 5) 0).1.nodes "book:A" =
      countId oneNodeStore.nodes "book:A" :=
  (addBatch_merge_semantics oneNodeStore ⟨[entAdesc], [], none⟩ 5 0
    (by unfold uniqueIds; decide)).1 "book:A" (by decide)

/-- C1 counterexample: the stored node for "book:A" has a null description;
a second batch carries the same identity with a non-null description, no
second node is created, yet the stored description stays null — the claim
that every null field is filled from the incoming entity fails. -/
theorem addBatch_merge_description_cex :
    countId c1s2.nodes "book:A" = 1 ∧
    entAdesc.description = some "d" ∧
    (findNode c1s2.nodes "book:A").map GNode.description = some none ∧
    ¬ (findNode c1s2.nodes "book:A").map GNode.description = some (some "d") := by decide

/-! ### Claim C6: enrichment error handling -/

/-- Enrichment never changes a node's identity. -/
theorem enrichOne_id (n : GNode) (a b : Option String) : (enrichOne n a b).id = n.id := by
  unfold enrichOne
  cases a <;> cases b <;> dsimp only <;> repeat' first | rfl | split

/-- C6 counterexample: on a persistent HTTP 429 failure the api-key
enrichment step performs exactly one upstream fetch, while the shared
`retryWithBackoff` policy performs three attempts on the same outcomes —
the step is not retried by the shared RetryPolicy. -/
theorem enrichment_noRetryPolicy_cex :
    (findApiKeyForNode "book" none
      (fun _ => (Except.error err429 : Except JsError (Option String)))).2 = 1 ∧
    (retryWithBackoff
      (fun _ => (Except.error err429 : Except JsError (Option String))) 3 1000 10000).2.1 = 3 ∧
    (1 : Nat) ≠ 3 := by decide

/-- C6 (amended): each enrichment step handles failures on its own —
`fetchOpenLibrary` performs at most one extra manual retry (never more than
two fetches), and the per-node outcome oracles are total because every step
catches its errors — so the background loop applies each listed node's own
enrichment independently: a failure for one node or one step never changes
what happens to the remaining ids or the remaining step. -/
theorem backgroundEnrich_independent (s : StoreState) (ids : List String)
    (okey oimg : String → Option String) (hids : ids.Nodup) :
    (backgroundEnrichNodes s ids okey oimg).nodes =
      s.nodes.map (fun n => if n.id ∈ ids then enrichOne n (okey n.id) (oimg n.id) else n) ∧
    ∀ (cached : Option (Option String)) (results : Nat → Except JsError (Option String)),
      (fetchOpenLibrary cached results).2 ≤ 2 := by
  constructor
  · induction ids generalizing s with
    | nil =>
      show s.nodes = _
      rw [show s.nodes.map (fun n => if n.id ∈ ([] : List String) then
          enrichOne n (okey n.id) (oimg n.id) else n) = s.nodes.map (fun n => n) from
        List.map_congr_left (fun n _ => by simp), List.map_id']
    | cons id rest ih =>
      have hrest : rest.Nodup := (List.nodup_cons.mp hids).2
      have hidr : id ∉ rest := (List.nodup_cons.mp hids).1
      cases hf : findNode s.nodes id with
      | none =>
        have hstep : backgroundEnrichNodes s (id :: rest) okey oimg =
            backgroundEnrichNodes s rest okey oimg := by
          unfold backgroundEnrichNodes
          simp only [List.foldl_cons, hf]
        rw [hstep, ih s hrest]
        apply List.map_congr_left
        intro n hn
        have hne : n.id ≠ id := by
          intro hc
          exact (findNode_none_iff.mp hf) (hc ▸ List.mem_map_of_mem GNode.id hn)
        simp only [List.mem_cons]
        by_cases hmem : n.id ∈ rest
        · rw [if_pos hmem, if_pos (Or.inr hmem)]
        · rw [if_neg hmem, if_neg (fun h => h.elim hne hmem)]
      | some m0 =>
        have hstep : backgroundEnrichNodes s (id :: rest) okey oimg =
            backgroundEnrichNodes
              { s with nodes :=
                  s.nodes.map (fun n => if n.id == id then enrichOne n (okey id) (oimg id) else n) }
              rest okey oimg := by
          unfold backgroundEnrichNodes
          simp only [List.foldl_cons, hf]
        rw [hstep, ih _ hrest]
        show (s.nodes.map (fun n => if n.id == id then enrichOne n (okey id) (oimg id) else n)).map
            (fun n => if n.id ∈ rest then enrichOne n (okey n.id) (oimg n.id) else n) = _
        rw [List.map_map]
        apply List.map_congr_left
        intro n _
        simp only [Function.comp_apply, List.mem_cons]
        by_cases hnid : n.id = id
        · have hg : (if (n.id == id) = true then enrichOne n (okey id) (oimg id) else n) =
              enrichOne n (okey id) (oimg id) := if_pos (by simpa using hnid)
          rw [hg]
          have hrid : (enrichOne n (okey id) (oimg id)).id ∉ rest := by
            rw [enrichOne_id, hnid]
            exact hidr
          rw [if_neg hrid, if_pos (Or.inl hnid), hnid]
        · have hg : (if (n.id == id) = true then enrichOne n (okey id) (oimg id) else n) = n :=
            if_neg (by simpa using hnid)
          rw [hg]
          by_cases hmem : n.id ∈ rest
          · rw [if_pos hmem, if_pos (Or.inr hmem)]
          · rw [if_neg hmem, if_neg (fun h => h.elim hnid hmem)]
  · intro cached results
    cases cached with
    | some v => simp [fetchOpenLibrary]
    | none =>
      cases h0 : results 0 with
      | ok d => simp [fetchOpenLibrary, h0]
      | error e =>
        by_cases hn : (e.hasNetwork || e.hasFetch) = true
        · cases h1 : results 1 <;> simp [fetchOpenLibrary, h0, h1, hn]
        · simp [fetchOpenLibrary, h0, hn]

/-- Witness for C6: one node, one id, a successful key lookup and no image. -/
theorem backgroundEnrich_independent_witness :
    (backgroundEnrichNodes oneNodeStore ["book:A"]
        (fun _ => some "/works/OL1") (fun _ => none)).nodes =
      oneNodeStore.nodes.map
        (fun n => if n.id ∈ ["book:A"] then
          enrichOne n ((fun _ => some "/works/OL1") n.id) ((fun _ => none) n.id) else n) :=
  (backgroundEnrich_independent oneNodeStore ["book:A"]
    (fun _ => some "/works/OL1") (fun _ => none) (by decide)).1

/-! ### Claim C5: the connection path-finder scenario -/

/-- A stored id always resolves to some node. -/
theorem findNode_isSome_of_mem {ns : List GNode} {id : String} (h : id ∈ nodeIds ns) :
    ∃ n, findNode ns id = some n := by
  cases hf : findNode ns id with
  | some n => exact ⟨n, rfl⟩
  | none => exact absurd h (findNode_none_iff.mp hf)

/-- When both endpoints resolve, `findConnection` issues exactly one query,
returns the machine to `inactive` with cleared endpoints and fetching flag,
and on a parsed response carrying a path stores exactly the resolved ids of
the returned labels. -/
theorem findConnectionRun_props (s : StoreState) (A B : String) (t now : Int) (r : LlmResult)
    (nA nB : GNode) (hnA : findNode s.nodes A = some nA) (hnB : findNode s.nodes B = some nB) :
    (findConnectionRun s A (some B) t now r).2 = 1 ∧
    (findConnectionRun s A (some B) t now r).1.connectionMode = ConnMode.inactive ∧
    (findConnectionRun s A (some B) t now r).1.connectionStartNode = none ∧
    (findConnectionRun s A (some B) t now r).1.isFetching = false ∧
    ∀ resp p, r = LlmResult.ok resp → resp.path = some p →
      (findConnectionRun s A (some B) t now r).1.connectionPath =
        p.filterMap (fun lbl =>
          (lastByLabel (findConnectionRun s A (some B) t now r).1.nodes lbl).map GNode.id) := by
  unfold findConnectionRun
  rw [show ((some B).bind (fun e => findNode s.nodes e)) = findNode s.nodes B from rfl,
    hnA, hnB]
  refine ⟨rfl, rfl, rfl, rfl, ?_⟩
  rintro resp p rfl hp
  dsimp only
  rw [hp]

/-- C5 (amended): from `inactive` with no query in flight, toggling the
path finder and clicking node A moves the machine to `selectingEnd` with
start = A and launches nothing; clicking A again launches nothing; clicking
B ≠ A launches the connection query; the query runs exactly once and
settles back in `inactive`; on success the stored connection path is the
list of returned path labels resolved (last match wins) to node ids, which
is non-empty exactly when at least one returned label resolves. -/
theorem pathFinder_scenario (s : StoreState) (A B : String) (t now : Int) (r : LlmResult)
    (hmode : s.connectionMode = ConnMode.inactive)
    (hfetch : s.isFetching = false)
    (hA : A ∈ nodeIds s.nodes) (hB : B ∈ nodeIds s.nodes)
    (hAB : A ≠ B) (hAne : A ≠ "") :
    (setSelectedNode (toggleConnectionMode s) (some A)).1.connectionMode =
      ConnMode.selectingEnd ∧
    (setSelectedNode (toggleConnectionMode s) (some A)).1.connectionStartNode = some A ∧
    (setSelectedNode (toggleConnectionMode s) (some A)).2 = [] ∧
    setSelectedNode (setSelectedNode (toggleConnectionMode s) (some A)).1 (some A) =
      ((setSelectedNode (toggleConnectionMode s) (some A)).1, []) ∧
    (setSelectedNode (setSelectedNode (toggleConnectionMode s) (some A)).1 (some B)).2 =
      [Effect.findConnection A (some B)] ∧
    (findConnectionRun
      (setSelectedNode (setSelectedNode (toggleConnectionMode s) (some A)).1 (some B)).1
      A (some B) t now r).2 = 1 ∧
    (findConnectionRun
      (setSelectedNode (setSelectedNode (toggleConnectionMode s) (some A)).1 (some B)).1
      A (some B) t now r).1.connectionMode = ConnMode.inactive ∧
    ∀ resp p, r = LlmResult.ok resp → resp.path = some p →
      (findConnectionRun
        (setSelectedNode (setSelectedNode (toggleConnectionMode s) (some A)).1 (some B)).1
        A (some B) t now r).1.connectionPath =
        p.filterMap (fun lbl =>
          (lastByLabel
            (findConnectionRun
              (setSelectedNode (setSelectedNode (toggleConnectionMode s) (some A)).1 (some B)).1
              A (some B) t now r).1.nodes lbl).map GNode.id) ∧
      ((∃ lbl ∈ p,
          (lastByLabel
            (findConnectionRun
              (setSelectedNode (setSelectedNode (toggleConnectionMode s) (some A)).1 (some B)).1
              A (some B) t now r).1.nodes lbl).isSome = true) →
        (findConnectionRun
          (setSelectedNode (setSelectedNode (toggleConnectionMode s) (some A)).1 (some B)).1
          A (some B) t now r).1.connectionPath ≠ []) := by
  have hA0 : (A == "") = false := beq_eq_false_iff_ne.mpr hAne
  have hABo : ((some A : Option String) == some B) = false :=
    beq_eq_false_iff_ne.mpr (fun hc => hAB (Option.some.inj hc))
  have hA1 : toggleConnectionMode s =
      { s with
        connectionMode := ConnMode.selectingStart
        selectedNode := none
        connectionPath := [] } := by
    simp [toggleConnectionMode, hmode]
  have hc1 : setSelectedNode (toggleConnectionMode s) (some A) =
      ({ s with
         connectionMode := ConnMode.selectingEnd
         selectedNode := some A
         connectionPath := []
         connectionStartNode := some A }, []) := by
    rw [hA1]
    simp [setSelectedNode, hfetch]
  have hc1A : setSelectedNode
      { s with
        connectionMode := ConnMode.selectingEnd
        selectedNode := some A
        connectionPath := []
        connectionStartNode := some A } (some A) =
      ({ s with
         connectionMode := ConnMode.selectingEnd
         selectedNode := some A
         connectionPath := []
         connectionStartNode := some A }, []) := by
    simp [setSelectedNode, hfetch]
  have hc2 : setSelectedNode
      { s with
        connectionMode := ConnMode.selectingEnd
        selectedNode := some A
        connectionPath := []
        connectionStartNode := some A } (some B) =
      ({ s with
         connectionMode := ConnMode.selectingEnd
         selectedNode := some A
         connectionPath := []
         connectionStartNode := some A
         connectionEndNode := some B }, [Effect.findConnection A (some B)]) := by
    simp [setSelectedNode, hfetch, hA0, hABo]
  obtain ⟨nA, hnA⟩ := findNode_isSome_of_mem hA
  obtain ⟨nB, hnB⟩ := findNode_isSome_of_mem hB
  have hrun := findConnectionRun_props
    { s with
      connectionMode := ConnMode.selectingEnd
      selectedNode := some A
      connectionPath := []
      connectionStartNode := some A
      connectionEndNode := some B }
    A B t now r nA nB hnA hnB
  rw [hc1]
  dsimp only
  rw [hc1A, hc2]
  dsimp only
  refine ⟨rfl, rfl, rfl, rfl, rfl, hrun.1, hrun.2.1, ?_⟩
  intro resp p hr hp
  have heq := hrun.2.2.2.2 resp p hr hp
  refine ⟨heq, ?_⟩
  rintro ⟨lbl, hl, hsome⟩ hnil
  rw [heq] at hnil
  have hall := List.filterMap_eq_nil_iff.mp hnil lbl hl
  rw [Option.map_eq_none'] at hall
  rw [hall] at hsome
  simp at hsome

/-- Witness for C5 on the concrete two-node store with a failing query. -/
theorem pathFinder_scenario_witness :
    (setSelectedNode (toggleConnectionMode twoNodeStore) (some "book:A")).1.connectionMode =
      ConnMode.selectingEnd :=
  (pathFinder_scenario twoNodeStore "book:A" "book:B" 3 0 LlmResult.fail rfl rfl
    (by decide) (by decide) (by decide) (by decide)).1

/-- C5 counterexample: the same scenario with a query that succeeds (its
parsed response carries a path) but whose single path label resolves to no
node: exactly one query ran, the machine is back in `inactive`, yet the
stored connection path is empty — refuting the claim that the path is
non-empty on success. -/
theorem pathFinder_emptyPath_cex :
    c5run.2 = 1 ∧
    c5run.1.connectionMode = ConnMode.inactive ∧
    c5run.1.connectionPath = [] := by decide

/-! ### Instantiation witnesses for the universally quantified claims -/

/-- Witness for C2: the invariant at a concrete one-batch run. -/
theorem addBatch_edge_invariant_witness :
    edgeEndpointsPresent (runBatches [(⟨[entA], [⟨"A", "A"⟩], none⟩, some 1, 0)]) ∧
    edgesPairwiseDistinct (runBatches [(⟨[entA], [⟨"A", "A"⟩], none⟩, some 1, 0)]) :=
  addBatch_edge_invariant [(⟨[entA], [⟨"A", "A"⟩], none⟩, some 1, 0)]

/-- Witness for C3 at a concrete store and batch. -/
theorem addNewDataToGraph_ignores_latestTimestamp_witness :
    addNewDataToGraph { initialStore with latestQueryTimestamp := some 9 }
        ⟨[entA], [], none⟩ (some 1) 0 =
      ({ (addNewDataToGraph initialStore ⟨[entA], [], none⟩ (some 1) 0).1 with
           latestQueryTimestamp := some 9 },
       (addNewDataToGraph initialStore ⟨[entA], [], none⟩ (some 1) 0).2) :=
  addNewDataToGraph_ignores_latestTimestamp initialStore ⟨[entA], [], none⟩ 1 0 (some 9)

/-- Witness for C7 at the initial store. -/
theorem seedGrid_miss_noPopulate_witness :
    (seedGrid initialStore none).1.bookGrid.isLoading = false ∧
    (seedGrid initialStore none).2 = false ∧
    (seedGrid initialStore none).1.bookGrid.isSeeded = initialStore.bookGrid.isSeeded ∧
    (seedGrid initialStore none).1.bookGrid.dismissedBooks = [] ∧
    ∀ sl ∈ (seedGrid initialStore none).1.bookGrid.slots,
      sl.status = SlotStatus.empty ∧ sl.bookData = none :=
  seedGrid_miss_noPopulate initialStore
